import Mathlib

/-!
Verification development for the geography extraction pipeline
(`extract_geographies.py`, `extract_world_geographies.py`, with reference
data shapes from `setup_census_data.py` / `setup_world_data.py`).

Texts and keys are modelled as `List Char`.  Python string primitives
(`str.lower`, `str.upper`, `str.title`, `str.strip`, `in`, `split`) are
modelled character-wise over this representation (an ASCII-faithful model
of the Python semantics).  Python dicts are modelled as association lists
(first binding wins, matching insertion-ordered dicts with distinct keys),
absent dict keys as `Option.none`, and floats that only ever get truthiness
tests as `Option Int`.
-/

set_option maxHeartbeats 1000000
set_option synthInstance.maxHeartbeats 400000

abbrev Str := List Char

namespace Geo

/-- ASCII uppercase letter, the regex class `[A-Z]`. -/
def isUpAZ (c : Char) : Bool := 'A' ≤ c && c ≤ 'Z'

/-- ASCII lowercase letter, the regex class `[a-z]`. -/
def isLoAZ (c : Char) : Bool := 'a' ≤ c && c ≤ 'z'

/-- The world-extractor lowercase class `[a-zÀ-ɏ]`. -/
def isLoExt (c : Char) : Bool := isLoAZ c || (0xC0 ≤ c.toNat && c.toNat ≤ 0x24F)

/-- Whitespace as in Python's `\s` / `str.strip` (ASCII part). -/
def isSpaceCh (c : Char) : Bool :=
  c = ' ' || c = '\t' || c = '\n' || c = '\x0d' || c = '\x0b' || c = '\x0c'

/-- Word character for `\b` boundaries (Python `\w`, ASCII plus the
Latin supplement/extended letters used by the world patterns). -/
def isWordCh (c : Char) : Bool :=
  c.isAlphanum || c = '_' ||
    (0xC0 ≤ c.toNat && c.toNat ≤ 0x24F && c.toNat ≠ 0xD7 && c.toNat ≠ 0xF7)

/-- Boundary test: `\b` holds before the next character iff the previous
character (if any) is not a word character. -/
def wordB : Option Char → Bool
  | none => false
  | some c => isWordCh c

/-- Character-wise model of Python `str.lower` (ASCII case mapping). -/
def lowerCh (c : Char) : Char :=
  if isUpAZ c then Char.ofNat (c.toNat + 32) else c

/-- Character-wise model of Python `str.upper` (ASCII case mapping). -/
def upperCh (c : Char) : Char :=
  if isLoAZ c then Char.ofNat (c.toNat - 32) else c

def pyLower (s : Str) : Str := s.map lowerCh

def pyUpper (s : Str) : Str := s.map upperCh

/-- Python `str.title` (ASCII model): uppercase every letter that does not
follow a letter, lowercase every other letter. -/
def pyTitleGo : Bool → Str → Str
  | _, [] => []
  | prevAlpha, c :: cs =>
    if c.isAlpha then
      (if prevAlpha then lowerCh c else upperCh c) :: pyTitleGo true cs
    else
      c :: pyTitleGo false cs

def pyTitle (s : Str) : Str := pyTitleGo false s

/-- Python `str.strip` (whitespace on both ends). -/
def pyStrip (s : Str) : Str :=
  ((s.dropWhile isSpaceCh).reverse.dropWhile isSpaceCh).reverse

/-- Python substring test `needle in hay`. -/
def substrB (needle : Str) : Str → Bool
  | [] => needle.isEmpty
  | c :: cs => needle.isPrefixOf (c :: cs) || substrB needle cs

/-- Python `str.split(sep)` for a single-character separator. -/
def pySplit (sep : Char) : Str → List Str
  | [] => [[]]
  | c :: cs =>
    let ps := pySplit sep cs
    if c = sep then [] :: ps
    else
      match ps with
      | p :: t => (c :: p) :: t
      | [] => [[c]]

/-- Maximal munch of a character class: number of leading characters
satisfying `p` together with the rest of the string. -/
def munch (p : Char → Bool) : Str → Nat × Str
  | [] => (0, [])
  | c :: cs =>
    if p c then
      let m := munch p cs
      (m.1 + 1, m.2)
    else (0, c :: cs)

/-- `re.finditer`-style scan driver with positions: at each index try the
matcher (which receives the previous character for `\b` tests and returns
the match payload plus its length); after a match, resume at its end.
Returns `(start, end, payload)` triples, leftmost and non-overlapping.
Each step consumes at least one character, so a fuel of `s.length`
suffices (structural recursion on the fuel keeps the scan computable by
the kernel). -/
def scanPosFuel (f : Option Char → Str → Option (α × Nat)) :
    Nat → Nat → Option Char → Str → List (Nat × Nat × α)
  | 0, _, _, _ => []
  | _ + 1, _, _, [] => []
  | fuel + 1, i, prev, c :: cs =>
    match f prev (c :: cs) with
    | some (a, n) =>
      let k := max n 1
      (i, i + k, a) :: scanPosFuel f fuel (i + k) ((c :: cs)[k - 1]?) ((c :: cs).drop k)
    | none => scanPosFuel f fuel (i + 1) (some c) cs

def scanPos (f : Option Char → Str → Option (α × Nat))
    (i : Nat) (prev : Option Char) (s : Str) : List (Nat × Nat × α) :=
  scanPosFuel f s.length i prev s

/-- Matches of a matcher over a text (payloads only). -/
def scanAll (f : Option Char → Str → Option (α × Nat)) (s : Str) : List α :=
  (scanPos f 0 none s).map (fun m => m.2.2)

/-- All end offsets of a greedy chain `first (ext)*`, in increasing order;
`ext` is run on the remaining suffix and must consume at least one
character (enforced with `max · 1`, our extension matchers always do). -/
def chainEndsAux (ext : Str → Option Nat) : Nat → Str → Nat → List Nat
  | 0, _, _ => []
  | fuel + 1, rest, e =>
    match ext rest with
    | none => []
    | some d =>
      let d' := max d 1
      (e + d') :: chainEndsAux ext fuel (rest.drop d') (e + d')

def chainEnds (first : Str → Option Nat) (ext : Str → Option Nat) (s : Str) : List Nat :=
  match first s with
  | none => []
  | some n0 =>
    let n0' := max n0 1
    n0' :: chainEndsAux ext s.length (s.drop n0') n0'

/-- `[A-Z]lo+`: a capitalized word whose tail letters are in class `lo`
(at least one tail letter); returns its length. -/
def capWordLen (lo : Char → Bool) : Str → Option Nat
  | [] => none
  | c :: cs =>
    if isUpAZ c then
      let m := (munch lo cs).1
      if m = 0 then none else some (m + 1)
    else none

end Geo

namespace Geo

/-- The string constant `", "` used by the f-string keys. -/
def commaSp : Str := [',', ' ']

def stateTy : Str := ("state").toList
def placeTy : Str := ("place").toList
def cityTy : Str := ("city").toList
def countyLit : Str := ("County").toList
def countyLower : Str := ("county").toList

/-- Python-dict lookup on an association list (first binding wins). -/
def alookup : List (Str × α) → Str → Option α
  | [], _ => none
  | (k', v) :: rest, k => if k' = k then some v else alookup rest k

/-- `OLD_STATE_ABBREVS`: old-style state abbreviations from
`extract_geographies.py`. -/
def OLD_STATE_ABBREVS : List (Str × Str) :=
  [(("Ala.").toList, ("AL").toList), (("Ariz.").toList, ("AZ").toList),
   (("Ark.").toList, ("AR").toList), (("Calif.").toList, ("CA").toList),
   (("Colo.").toList, ("CO").toList), (("Conn.").toList, ("CT").toList),
   (("Del.").toList, ("DE").toList), (("Fla.").toList, ("FL").toList),
   (("Ga.").toList, ("GA").toList), (("Ill.").toList, ("IL").toList),
   (("Ind.").toList, ("IN").toList), (("Kans.").toList, ("KS").toList),
   (("Ky.").toList, ("KY").toList), (("La.").toList, ("LA").toList),
   (("Mass.").toList, ("MA").toList), (("Md.").toList, ("MD").toList),
   (("Mich.").toList, ("MI").toList), (("Minn.").toList, ("MN").toList),
   (("Miss.").toList, ("MS").toList), (("Mo.").toList, ("MO").toList),
   (("Mont.").toList, ("MT").toList), (("Nebr.").toList, ("NE").toList),
   (("Nev.").toList, ("NV").toList), (("N.H.").toList, ("NH").toList),
   (("N.J.").toList, ("NJ").toList), (("N.M.").toList, ("NM").toList),
   (("N.Y.").toList, ("NY").toList), (("N.C.").toList, ("NC").toList),
   (("N.D.").toList, ("ND").toList), (("Okla.").toList, ("OK").toList),
   (("Oreg.").toList, ("OR").toList), (("Pa.").toList, ("PA").toList),
   (("R.I.").toList, ("RI").toList), (("S.C.").toList, ("SC").toList),
   (("S.D.").toList, ("SD").toList), (("Tenn.").toList, ("TN").toList),
   (("Tex.").toList, ("TX").toList), (("Vt.").toList, ("VT").toList),
   (("Va.").toList, ("VA").toList), (("Wash.").toList, ("WA").toList),
   (("W.Va.").toList, ("WV").toList), (("Wis.").toList, ("WI").toList),
   (("Wyo.").toList, ("WY").toList), (("D.C.").toList, ("DC").toList)]

/-- City token of domestic patterns 1-3:
`[A-Z][a-z]+(?:[\.\s]+[A-Z]?[a-z]+)*` (first word). -/
def usCityFirst : Str → Option Nat := capWordLen isLoAZ

/-- One chain extension `[\.\s]+[A-Z]?[a-z]+` of the domestic city token. -/
def usCityExt (s : Str) : Option Nat :=
  let m := munch (fun c => c = '.' || isSpaceCh c) s
  if m.1 = 0 then none
  else
    match m.2 with
    | [] => none
    | c :: cs =>
      if isUpAZ c then
        let k := (munch isLoAZ cs).1
        if k = 0 then none else some (m.1 + 1 + k)
      else
        let k := (munch isLoAZ (c :: cs)).1
        if k = 0 then none else some (m.1 + k)

/-- Candidate end offsets of the domestic city token, greedy (longest) first. -/
def usCityEnds (s : Str) : List Nat := (chainEnds usCityFirst usCityExt s).reverse

/-- One chain extension `\s+[A-Z][a-z]+`. -/
def spaceCapExt (s : Str) : Option Nat :=
  let m := munch isSpaceCh s
  if m.1 = 0 then none else (capWordLen isLoAZ m.2).map (m.1 + ·)

/-- The state alternation `([A-Z][a-z]+(?:\s+[A-Z][a-z]+)*|[A-Z]{2})\b`:
full-name branch first (greedy, backtracking against the trailing `\b`),
then the two-uppercase-letter branch. -/
def stateAlt (s : Str) : Option (Str × Nat) :=
  let ends := (chainEnds (capWordLen isLoAZ) spaceCapExt s).reverse
  match ends.find? (fun e => ! wordB ((s.drop e).head?)) with
  | some e => some (s.take e, e)
  | none =>
    match s with
    | a :: b :: rest =>
      if isUpAZ a && isUpAZ b && ! wordB rest.head? then some ([a, b], 2) else none
    | _ => none

/-- Pattern 1 `\b(city),\s*(state|ST)\b` matcher at one position. -/
def p1At (prev : Option Char) (s : Str) : Option ((Str × Str) × Nat) :=
  if wordB prev then none
  else
    (usCityEnds s).findSome? (fun e =>
      match s.drop e with
      | ',' :: r2 =>
        let w := munch isSpaceCh r2
        match stateAlt w.2 with
        | some (st, k) => some ((s.take e, st), e + 1 + w.1 + k)
        | none => none
      | _ => none)

/-- `([A-Z][a-z]+\.)`: an old-style abbreviation token like `Mass.`. -/
def oldAbbrevAt (s : Str) : Option (Str × Nat) :=
  match capWordLen isLoAZ s with
  | none => none
  | some n => if (s.drop n).head? = some '.' then some (s.take (n + 1), n + 1) else none

/-- Pattern 2 `\b(city),\s*([A-Z][a-z]+\.)` matcher at one position. -/
def p2At (prev : Option Char) (s : Str) : Option ((Str × Str) × Nat) :=
  if wordB prev then none
  else
    (usCityEnds s).findSome? (fun e =>
      match s.drop e with
      | ',' :: r2 =>
        let w := munch isSpaceCh r2
        (oldAbbrevAt w.2).map (fun ak => ((s.take e, ak.1), e + 1 + w.1 + ak.2))
      | _ => none)

/-- `([A-Z]\.[A-Z]\.)`: a dotted two-letter abbreviation like `N.Y.`. -/
def dottedAbbrevAt : Str → Option (Str × Nat)
  | a :: '.' :: b :: '.' :: _ =>
    if isUpAZ a && isUpAZ b then some ([a, '.', b, '.'], 4) else none
  | _ => none

/-- Pattern 3 `\b(city),\s*([A-Z]\.[A-Z]\.)` matcher at one position. -/
def p3At (prev : Option Char) (s : Str) : Option ((Str × Str) × Nat) :=
  if wordB prev then none
  else
    (usCityEnds s).findSome? (fun e =>
      match s.drop e with
      | ',' :: r2 =>
        let w := munch isSpaceCh r2
        (dottedAbbrevAt w.2).map (fun ak => ((s.take e, ak.1), e + 1 + w.1 + ak.2))
      | _ => none)

/-- Pattern 4 `\b([A-Z][a-z]+(?:\s+[A-Z][a-z]+)*)\s+County\b` matcher. -/
def p4At (prev : Option Char) (s : Str) : Option (Str × Nat) :=
  if wordB prev then none
  else
    ((chainEnds (capWordLen isLoAZ) spaceCapExt s).reverse).findSome? (fun e =>
      let m := munch isSpaceCh (s.drop e)
      if m.1 = 0 then none
      else if countyLit.isPrefixOf m.2 && ! wordB ((m.2.drop 6).head?) then
        some (s.take e, e + m.1 + 6)
      else none)

/-- Pattern 5 `\b(county)\s+County,\s*(state|ST)\b` matcher. -/
def p5At (prev : Option Char) (s : Str) : Option ((Str × Str) × Nat) :=
  if wordB prev then none
  else
    ((chainEnds (capWordLen isLoAZ) spaceCapExt s).reverse).findSome? (fun e =>
      let m := munch isSpaceCh (s.drop e)
      if m.1 = 0 then none
      else if (countyLit ++ [',']).isPrefixOf m.2 then
        let r2 := m.2.drop 7
        let w := munch isSpaceCh r2
        (stateAlt w.2).map (fun sk => ((s.take e, sk.1), e + m.1 + 7 + w.1 + sk.2))
      else none)

end Geo

namespace Geo

/-- A validated/geocoded domestic record: the dict shape returned by
`GeographyExtractor.validate_and_geocode` (and stored in
`us_locations.json` / `us_counties.json`).  Absent dict keys are `none`. -/
structure USRec where
  name : Str
  state : Option Str
  state_abbrev : Option Str
  county : Option Str
  lat : Option Int
  lng : Option Int
  type : Str
  ambiguous : Option Bool
  possible_states : Option (List Str)
deriving DecidableEq, Repr

/-- One entry of the `city_states_index.json` disambiguation lists. -/
structure StateInfo where
  state : Str
  state_abbrev : Str
  lat : Option Int
  lng : Option Int
deriving DecidableEq, Repr

/-- The `states.json` tables. -/
structure StatesTbl where
  abbrev_to_full : List (Str × Str)
  full_to_abbrev : List (Str × Str)
deriving DecidableEq, Repr

/-- Reference data loaded by `GeographyExtractor.__init__`. -/
structure USGaz where
  locations : List (Str × USRec)
  counties : List (Str × USRec)
  states : StatesTbl
  city_states : List (Str × List StateInfo)
  common_words : List Str
  common_names : List Str
deriving DecidableEq, Repr

/-- `extract_locations_regex` from `extract_geographies.py`: the six
domestic surface patterns, emitting raw candidate strings in order. -/
def extractUS (g : USGaz) (text : Str) : List Str :=
  if text.isEmpty then []
  else
    let r1 := (scanAll p1At text).filterMap (fun cs =>
      if g.common_names.contains (pyLower cs.1) then none
      else
        if (alookup g.states.abbrev_to_full (pyUpper cs.2)).isSome
            || (alookup g.states.full_to_abbrev (pyTitle cs.2)).isSome then
          some (cs.1 ++ commaSp ++ cs.2)
        else none)
    let r2 := (scanAll p2At text).filterMap (fun ca =>
      if g.common_names.contains (pyLower ca.1) then none
      else
        match alookup OLD_STATE_ABBREVS ca.2 with
        | some code => some (ca.1 ++ commaSp ++ (alookup g.states.abbrev_to_full code).getD code)
        | none => none)
    let r3 := (scanAll p3At text).filterMap (fun ca =>
      if g.common_names.contains (pyLower ca.1) then none
      else
        match alookup OLD_STATE_ABBREVS ca.2 with
        | some code => some (ca.1 ++ commaSp ++ (alookup g.states.abbrev_to_full code).getD code)
        | none => none)
    let r4 := (scanAll p4At text).map (fun cn => cn ++ ' ' :: countyLit)
    let r5 := (scanAll p5At text).filterMap (fun cs =>
      let full_county := cs.1 ++ ' ' :: countyLit
      if (alookup g.states.abbrev_to_full (pyUpper cs.2)).isSome
          || (alookup g.states.full_to_abbrev (pyTitle cs.2)).isSome then
        some (full_county ++ commaSp ++ (alookup g.states.abbrev_to_full (pyUpper cs.2)).getD cs.2)
      else none)
    let r6 := (g.states.full_to_abbrev.map Prod.fst).filter (fun nm => substrB nm text)
    r1 ++ r2 ++ r3 ++ r4 ++ r5 ++ r6

/-- A state-level record `{'name': nm, 'type': 'state'}` (no other keys). -/
def mkStateRec (nm : Str) : USRec :=
  { name := nm, state := none, state_abbrev := none, county := none,
    lat := none, lng := none, type := stateTy, ambiguous := none,
    possible_states := none }

/-- `validate_and_geocode` from `extract_geographies.py`. -/
def validateUS (g : USGaz) (location_str : Str) : Option USRec :=
  let loc_lower := pyStrip (pyLower location_str)
  match alookup g.locations loc_lower with
  | some e => some e
  | none =>
  match alookup g.counties loc_lower with
  | some e => some e
  | none =>
  let countyTry : Option USRec :=
    if substrB countyLower loc_lower && substrB [','] loc_lower then
      match (pySplit ',' loc_lower).map pyStrip with
      | [county_part, state] =>
        let first :=
          match alookup g.states.abbrev_to_full (pyUpper state) with
          | some full_state => alookup g.counties (pyLower (county_part ++ commaSp ++ full_state))
          | none => none
        match first with
        | some e => some e
        | none => alookup g.counties (pyLower (county_part ++ commaSp ++ state))
      | _ => none
    else none
  match countyTry with
  | some e => some e
  | none =>
  let cityTry : Option USRec :=
    if substrB [','] loc_lower then
      match (pySplit ',' loc_lower).map pyStrip with
      | [city, state] =>
        let t1 :=
          match alookup g.states.abbrev_to_full (pyUpper state) with
          | some full_state => alookup g.locations (pyLower (city ++ commaSp ++ full_state))
          | none => none
        match t1 with
        | some e => some e
        | none =>
          match alookup g.states.full_to_abbrev (pyTitle state) with
          | some ab => alookup g.locations (pyLower (city ++ commaSp ++ ab))
          | none => none
      | _ => none
    else
      match alookup g.city_states loc_lower with
      | some (s0 :: rest) =>
        if rest.isEmpty then
          some { name := location_str, state := some s0.state,
                 state_abbrev := some s0.state_abbrev, county := none,
                 lat := s0.lat, lng := s0.lng, type := placeTy,
                 ambiguous := some false, possible_states := none }
        else
          some { name := location_str, state := some s0.state,
                 state_abbrev := some s0.state_abbrev, county := none,
                 lat := s0.lat, lng := s0.lng, type := placeTy,
                 ambiguous := some true,
                 possible_states := some ((s0 :: rest).map (fun x => x.state)) }
      | _ => none
  match cityTry with
  | some e => some e
  | none =>
  if (alookup g.states.full_to_abbrev (pyTitle loc_lower)).isSome then
    some (mkStateRec (pyTitle loc_lower))
  else
    match alookup g.states.abbrev_to_full (pyUpper loc_lower) with
    | some full => some (mkStateRec full)
    | none => none

end Geo

namespace Geo

/-- One value of the `geo_counts` defaultdict in `process_documents`. -/
structure Entry (V : Type) where
  count : Nat
  doc_ids : List Str
  info : Option V
deriving DecidableEq, Repr

/-- The defaultdict default `{'count': 0, 'doc_ids': [], 'info': None}`. -/
def emptyEntry : Entry V := ⟨0, [], none⟩

/-- The aggregation state `geo_counts` (insertion-ordered dict). -/
abbrev AggSt (V : Type) := List (Str × Entry V)

def getEntry (st : AggSt V) (k : Str) : Entry V := (alookup st k).getD emptyEntry

/-- Write-back of one key's entry (replace in place, or append a new key,
as a Python dict assignment does). -/
def setEntry : AggSt V → Str → Entry V → AggSt V
  | [], k, e => [(k, e)]
  | (k', e') :: rest, k, e =>
    if k' = k then (k, e) :: rest else (k', e') :: setEntry rest k e

/-- The body run for one newly-seen validated key of a document:
`count += 1`, `info := validated`, and the doc id is appended while the
incremented count is at most 100. -/
def hitKey (did : Str) (st : AggSt V) (k : Str) (v : V) : AggSt V :=
  let e := getEntry st k
  setEntry st k
    { count := e.count + 1, info := some v,
      doc_ids := if e.count + 1 ≤ 100 then e.doc_ids ++ [did] else e.doc_ids }

/-- Observation functions on the aggregation state. -/
def countOf (st : AggSt V) (k : Str) : Nat := (getEntry st k).count

def docIdsOf (st : AggSt V) (k : Str) : List Str := (getEntry st k).doc_ids

def infoOf (st : AggSt V) (k : Str) : Option V := (getEntry st k).info

/-- One source document `{_id, title?, text?}`. -/
structure Doc where
  id : Str
  title : Str
  text : Str
deriving DecidableEq, Repr

/-- `full_text = f"{title} {text}"`. -/
def fullText (d : Doc) : Str := d.title ++ ' ' :: d.text

/-- `data['doc_ids'][:10]`, the persisted sample list. -/
def sampleDocIds (e : Entry V) : List Str := e.doc_ids.take 10

/-- Truthiness of `validated.get('lat')` (`None` and `0.0` are falsy). -/
def latTruthy (lat : Option Int) : Bool :=
  match lat with
  | some v => v ≠ 0
  | none => false

/-- The canonical key of a validated domestic record:
state-level records use `name.lower()`, others `f"{name}, {state}".lower()`. -/
def usKey (r : USRec) : Str :=
  if r.type = stateTy then pyLower r.name
  else pyLower (r.name ++ commaSp ++ r.state.getD [])

/-- The per-candidate step of the domestic aggregation loop:
validate, require a truthy `lat`, and pair the record with its key. -/
def usCandPair (g : USGaz) (loc : Str) : Option (Str × USRec) :=
  match validateUS g loc with
  | some v => if latTruthy v.lat then some (usKey v, v) else none
  | none => none

/-- The per-document loop of `process_documents` (domestic):
fold over the raw candidates with the per-document `seen_in_doc` set. -/
def usDocLoop (g : USGaz) (did : Str) : AggSt USRec → List Str → List Str → AggSt USRec
  | st, _, [] => st
  | st, seen, loc :: rest =>
    match usCandPair g loc with
    | some kv =>
      if seen.contains kv.1 then usDocLoop g did st seen rest
      else usDocLoop g did (hitKey did st kv.1 kv.2) (kv.1 :: seen) rest
    | none => usDocLoop g did st seen rest

def processDocUS (g : USGaz) (st : AggSt USRec) (d : Doc) : AggSt USRec :=
  usDocLoop g d.id st [] (extractUS g (fullText d))

def processCorpusUS (g : USGaz) (docs : List Doc) : AggSt USRec :=
  docs.foldl (processDocUS g) []

/-- Extracted-and-validated `(key, record)` pairs of one document. -/
def docValidPairsUS (g : USGaz) (d : Doc) : List (Str × USRec) :=
  (extractUS g (fullText d)).filterMap (usCandPair g)

def docValidKeysUS (g : USGaz) (d : Doc) : List Str :=
  (docValidPairsUS g d).map Prod.fst

/-- Whether a document contributes a hit for a key. -/
def docHitsUS (g : USGaz) (k : Str) (d : Doc) : Bool :=
  (docValidKeysUS g d).contains k

/-- One persisted record of the `geography_counts` collection
(`updated_at`, a wall-clock timestamp, is outside the model). -/
structure GeoDocUS where
  location_key : Str
  name : Str
  state : Str
  state_abbrev : Str
  county : Str
  lat : Option Int
  lng : Option Int
  count : Nat
  type : Str
  sample_doc_ids : List Str
deriving DecidableEq, Repr

/-- The finalization loop of `process_documents` (domestic): keep entries
with a truthy `info` and `count >= 1` and build the stored records. -/
def finalizeUS (st : AggSt USRec) : List GeoDocUS :=
  st.filterMap (fun kv =>
    match kv.2.info with
    | none => none
    | some v =>
      if 1 ≤ kv.2.count then
        some { location_key := kv.1,
               name := v.name,
               state := if v.type = stateTy then [] else v.state.getD [],
               state_abbrev := if v.type = stateTy then [] else v.state_abbrev.getD [],
               county := v.county.getD [],
               lat := v.lat, lng := v.lng,
               count := kv.2.count, type := v.type,
               sample_doc_ids := sampleDocIds kv.2 }
      else none)

end Geo

namespace Geo

/-- One entry of `world_locations.json` (GeoNames-derived). -/
structure WRec where
  name : Str
  country : Str
  country_code : Str
  lat : Option Int
  lng : Option Int
  population : Option Nat
deriving DecidableEq, Repr

/-- One entry of the `city_countries_index.json` disambiguation lists. -/
structure CountryInfo where
  country : Str
  country_code : Str
  lat : Option Int
  lng : Option Int
  population : Nat
deriving DecidableEq, Repr

/-- The `countries.json` tables. -/
structure CountriesTbl where
  code_to_name : List (Str × Str)
  name_to_code : List (Str × Str)
deriving DecidableEq, Repr

/-- Reference data loaded by `WorldGeographyExtractor.__init__`
(`city_countries` is loaded but never read by any extraction or
validation path). -/
structure WGaz where
  locations : List (Str × WRec)
  city_countries : List (Str × List CountryInfo)
  countries : CountriesTbl
  common_words : List Str
  common_names : List Str
deriving DecidableEq, Repr

/-- The dict built by the world `validate_and_geocode`.  The last two
fields model dict keys that the world code never writes (always `none`);
they exist so that their absence can be stated. -/
structure WValid where
  name : Str
  country : Str
  country_code : Str
  lat : Option Int
  lng : Option Int
  population : Nat
  type : Str
  ambiguous : Option Bool
  possible_countries : Option (List Str)
deriving DecidableEq, Repr

/-- The record literal both branches of the world validator build. -/
def mkWValid (loc : WRec) : WValid :=
  { name := loc.name, country := loc.country, country_code := loc.country_code,
    lat := loc.lat, lng := loc.lng, population := loc.population.getD 0,
    type := cityTy, ambiguous := none, possible_countries := none }

/-- `validate_and_geocode` from `extract_world_geographies.py`: primary
`f"{city}, {country_name}".lower()` lookup, then the "ASCII name"
fallback `f"{city.lower()}, {country_name.lower()}"`. -/
def validateWorld (g : WGaz) (city country_name _country_code : Str) : Option WValid :=
  let key := pyLower (city ++ commaSp ++ country_name)
  match alookup g.locations key with
  | some loc => some (mkWValid loc)
  | none =>
    let key_ascii := pyLower city ++ commaSp ++ pyLower country_name
    match alookup g.locations key_ascii with
    | some loc => some (mkWValid loc)
    | none => none

/-- Modelled from the spec: section 4.4 "World: looks up `"city, country"`
by canonical ... name forms; returns `None` on miss" — the
single-dictionary-lookup function the implicit claim compares
`validate_and_geocode` against. -/
def worldSingleLookup (g : WGaz) (city country_name : Str) : Option WValid :=
  (alookup g.locations (pyLower (city ++ commaSp ++ country_name))).map mkWValid

/-- Stable insertion of a string into a length-descending-sorted list
(later-inserted equals go after earlier ones, as Python's stable
`sorted(..., key=len, reverse=True)`). -/
def insertLenDesc (x : Str) : List Str → List Str
  | [] => [x]
  | y :: ys => if x.length ≤ y.length then y :: insertLenDesc x ys else x :: y :: ys

def sortLenDesc (l : List Str) : List Str :=
  l.foldl (fun acc x => insertLenDesc x acc) []

/-- A country mention `(start, end, code, country_name)`. -/
abbrev Mention := Nat × Nat × Str × Str

/-- One alternative of the compiled country-name regex, matched
case-insensitively at the current position with `\b` on both sides. -/
def nameMentionAt (names : List Str) (prev : Option Char) (s : Str) : Option (Str × Nat) :=
  if wordB prev then none
  else
    names.findSome? (fun nm =>
      if (! nm.isEmpty) && pyLower nm = pyLower (s.take nm.length)
          && ! wordB ((s.drop nm.length).head?) then
        some (nm, nm.length)
      else none)

/-- One alternative of the compiled 2-letter-code regex (case-sensitive). -/
def codeMentionAt (codes : List Str) (prev : Option Char) (s : Str) : Option (Str × Nat) :=
  if wordB prev then none
  else
    codes.findSome? (fun cd =>
      if (! cd.isEmpty) && cd.isPrefixOf s && ! wordB ((s.drop cd.length).head?) then
        some (cd, cd.length)
      else none)

/-- `find_country_mentions`: country-name matches (longest-first
alternation, case-insensitive) followed by 2-letter-code matches. -/
def findCountryMentions (g : WGaz) (text : Str) : List Mention :=
  let names := (sortLenDesc (g.countries.name_to_code.map Prod.fst)).filter
    (fun n => 2 < n.length)
  let ms1 := (scanPos (nameMentionAt names) 0 none text).filterMap (fun m =>
    match alookup g.countries.name_to_code (pyLower m.2.2) with
    | some code =>
      let slice := (text.drop m.1).take (m.2.1 - m.1)
      some (m.1, m.2.1, code, (alookup g.countries.code_to_name code).getD slice)
    | none => none)
  let codes := (g.countries.code_to_name.map Prod.fst).filter (fun c => c.length = 2)
  let ms2 := (scanPos (codeMentionAt codes) 0 none text).filterMap (fun m =>
    match alookup g.countries.code_to_name m.2.2 with
    | some nm => some (m.1, m.2.1, m.2.2, nm)
    | none => none)
  ms1 ++ ms2

/-- One chain extension `[\s-][A-Z][a-zÀ-ɏ]+` of the world city token. -/
def wCityExt (s : Str) : Option Nat :=
  match s with
  | c :: cs =>
    if isSpaceCh c || c = '-' then (capWordLen isLoExt cs).map (· + 1) else none
  | [] => none

/-- Candidate end offsets of the world city token, greedy first. -/
def wCityEnds (s : Str) : List Nat :=
  (chainEnds (capWordLen isLoExt) wCityExt s).reverse

/-- One chain extension `\s+[A-Z][a-zÀ-ɏ]+`. -/
def spaceCapExtW (s : Str) : Option Nat :=
  let m := munch isSpaceCh s
  if m.1 = 0 then none else (capWordLen isLoExt m.2).map (m.1 + ·)

/-- The world pattern-1 country group
`([A-Z][a-zÀ-ɏ]+(?:\s+[A-Z][a-zÀ-ɏ]+)*)\b`. -/
def wCountryAt (s : Str) : Option (Str × Nat) :=
  ((chainEnds (capWordLen isLoExt) spaceCapExtW s).reverse).findSome? (fun e =>
    if wordB ((s.drop e).head?) then none else some (s.take e, e))

/-- World pattern 1 `\b(city),\s*(country)\b` matcher. -/
def p1wAt (prev : Option Char) (s : Str) : Option ((Str × Str) × Nat) :=
  if wordB prev then none
  else
    (wCityEnds s).findSome? (fun e =>
      match s.drop e with
      | ',' :: r2 =>
        let w := munch isSpaceCh r2
        (wCountryAt w.2).map (fun ck => ((s.take e, ck.1), e + 1 + w.1 + ck.2))
      | _ => none)

/-- World pattern 2 `\b(city)\s*\(([A-Z]{2,}|[A-Z][a-z]+(?:\s+[A-Z][a-z]+)*)\)`. -/
def p2wAt (prev : Option Char) (s : Str) : Option ((Str × Str) × Nat) :=
  if wordB prev then none
  else
    (wCityEnds s).findSome? (fun e =>
      let w := munch isSpaceCh (s.drop e)
      match w.2 with
      | '(' :: r2 =>
        let alt2 : Option ((Str × Str) × Nat) :=
          ((chainEnds (capWordLen isLoAZ) spaceCapExt r2).reverse).findSome? (fun e2 =>
            match r2.drop e2 with
            | ')' :: _ => some ((s.take e, r2.take e2), e + w.1 + 1 + e2 + 1)
            | _ => none)
        let mu := munch isUpAZ r2
        if 2 ≤ mu.1 then
          match mu.2 with
          | ')' :: _ => some ((s.take e, r2.take mu.1), e + w.1 + 1 + mu.1 + 1)
          | _ => alt2
        else alt2
      | _ => none)

/-- World pattern 3 `\b(city),\s*([A-Z]{2})\b` matcher. -/
def p3wAt (prev : Option Char) (s : Str) : Option ((Str × Str) × Nat) :=
  if wordB prev then none
  else
    (wCityEnds s).findSome? (fun e =>
      match s.drop e with
      | ',' :: r2 =>
        let w := munch isSpaceCh r2
        match w.2 with
        | a :: b :: r3 =>
          if isUpAZ a && isUpAZ b && ! wordB r3.head? then
            some ((s.take e, [a, b]), e + 1 + w.1 + 2)
          else none
        | _ => none
      | _ => none)

/-- The pattern-4 city token `\b([A-Z][a-zÀ-ɏ]+(?:[\s-][A-Z][a-zÀ-ɏ]+)?)\b`. -/
def p4TokenAt (prev : Option Char) (s : Str) : Option (Str × Nat) :=
  if wordB prev then none
  else
    match capWordLen isLoExt s with
    | none => none
    | some n0 =>
      let withExt : Option Nat :=
        match wCityExt (s.drop n0) with
        | some d =>
          if wordB ((s.drop (n0 + d)).head?) then none else some (n0 + d)
        | none => none
      match withExt with
      | some e => some (s.take e, e)
      | none => if wordB ((s.drop n0).head?) then none else some (s.take n0, n0)

end Geo

namespace Geo

/-- An extracted world candidate `(city, country_name, country_code)`. -/
abbrev WCand := Str × Str × Str

def ukCode : Str := ("UK").toList
def gbCode : Str := ("GB").toList

/-- The `us_states` exclusion set of world pattern 3 (50 states plus DC). -/
def usStates : List Str :=
  [("AL").toList, ("AK").toList, ("AZ").toList, ("AR").toList, ("CA").toList,
   ("CO").toList, ("CT").toList, ("DE").toList, ("FL").toList, ("GA").toList,
   ("HI").toList, ("ID").toList, ("IL").toList, ("IN").toList, ("IA").toList,
   ("KS").toList, ("KY").toList, ("LA").toList, ("ME").toList, ("MD").toList,
   ("MA").toList, ("MI").toList, ("MN").toList, ("MS").toList, ("MO").toList,
   ("MT").toList, ("NE").toList, ("NV").toList, ("NH").toList, ("NJ").toList,
   ("NM").toList, ("NY").toList, ("NC").toList, ("ND").toList, ("OH").toList,
   ("OK").toList, ("OR").toList, ("PA").toList, ("RI").toList, ("SC").toList,
   ("SD").toList, ("TN").toList, ("TX").toList, ("UT").toList, ("VT").toList,
   ("VA").toList, ("WA").toList, ("WV").toList, ("WI").toList, ("WY").toList,
   ("DC").toList]

/-- Loop body of world pattern 1 over its `(city, country)` matches. -/
def p1wProcess (g : WGaz) (ms : List (Str × Str)) : List WCand :=
  ms.filterMap (fun m =>
    match alookup g.countries.name_to_code (pyLower m.2) with
    | some code =>
      let country_name := (alookup g.countries.code_to_name code).getD m.2
      if (alookup g.locations (pyLower m.1 ++ commaSp ++ pyLower country_name)).isSome then
        some (m.1, country_name, code)
      else none
    | none => none)

/-- Loop body of world pattern 2 over its `(city, country)` matches. -/
def p2wProcess (g : WGaz) (ms : List (Str × Str)) : List WCand :=
  ms.filterMap (fun m =>
    let code0 := alookup g.countries.name_to_code (pyLower m.2)
    let code :=
      match code0 with
      | some c => some c
      | none =>
        if (alookup g.countries.code_to_name (pyUpper m.2)).isSome then
          some (pyUpper m.2)
        else none
    match code with
    | some c =>
      let country_name := (alookup g.countries.code_to_name c).getD m.2
      if (alookup g.locations (pyLower m.1 ++ commaSp ++ pyLower country_name)).isSome then
        some (m.1, country_name, c)
      else none
    | none => none)

/-- Loop body of world pattern 3 over its `(city, code)` matches:
skip US state codes, normalize `UK` to `GB`, then look up. -/
def p3wProcess (g : WGaz) (ms : List (Str × Str)) : List WCand :=
  ms.filterMap (fun m =>
    if usStates.contains m.2 then none
    else
      let actual := if m.2 = ukCode then gbCode else m.2
      match alookup g.countries.code_to_name actual with
      | some country_name =>
        if (alookup g.locations (pyLower m.1 ++ commaSp ++ pyLower country_name)).isSome then
          some (m.1, country_name, actual)
        else none
      | none => none)

def p1wCands (g : WGaz) (text : Str) : List WCand := p1wProcess g (scanAll p1wAt text)

def p2wCands (g : WGaz) (text : Str) : List WCand := p2wProcess g (scanAll p2wAt text)

def p3wCands (g : WGaz) (text : Str) : List WCand := p3wProcess g (scanAll p3wAt text)

/-- The `text[max(0, start-100):min(len(text), end+100)]` window around a
country mention. -/
def mentionWindow (text : Str) (s e : Nat) : Str :=
  (text.drop (s - 100)).take (min text.length (e + 100) - (s - 100))

/-- Pattern 4 body for one country mention: scan the window for city
tokens, skip cities already found, accept only keys in the gazetteer,
and record accepted cities in the seen-city set. -/
def p4MentionStep (g : WGaz) (text : Str) (acc : List WCand × List Str)
    (m : Mention) : List WCand × List Str :=
  (scanAll p4TokenAt (mentionWindow text m.1 m.2.1)).foldl
    (fun (a : List WCand × List Str) city =>
      let city_lower := pyLower city
      if a.2.contains city_lower then a
      else if (alookup g.locations (city_lower ++ commaSp ++ pyLower m.2.2.2)).isSome then
        (a.1 ++ [(city, m.2.2.2, m.2.2.1)], a.2 ++ [city_lower])
      else a)
    acc

/-- `extract_locations` from `extract_world_geographies.py`. -/
def extractWorld (g : WGaz) (text0 : Str) : List WCand :=
  if text0.isEmpty then []
  else
    let text := if 50000 < text0.length then text0.take 50000 else text0
    let mentions := findCountryMentions g text
    if mentions.isEmpty then []
    else
      let pre := p1wCands g text ++ p2wCands g text ++ p3wCands g text
      let found0 := pre.map (fun c => pyLower c.1)
      (mentions.foldl (p4MentionStep g text) (pre, found0)).1

/-- The canonical world key `f"{name}, {country}".lower()`. -/
def wKey (r : WValid) : Str := pyLower (r.name ++ commaSp ++ r.country)

/-- Per-candidate step of the world aggregation loop. -/
def wCandPair (g : WGaz) (c : WCand) : Option (Str × WValid) :=
  match validateWorld g c.1 c.2.1 c.2.2 with
  | some v => if latTruthy v.lat then some (wKey v, v) else none
  | none => none

/-- The per-document loop of the world `process_documents`. -/
def wDocLoop (g : WGaz) (did : Str) : AggSt WValid → List Str → List WCand → AggSt WValid
  | st, _, [] => st
  | st, seen, c :: rest =>
    match wCandPair g c with
    | some kv =>
      if seen.contains kv.1 then wDocLoop g did st seen rest
      else wDocLoop g did (hitKey did st kv.1 kv.2) (kv.1 :: seen) rest
    | none => wDocLoop g did st seen rest

def processDocW (g : WGaz) (st : AggSt WValid) (d : Doc) : AggSt WValid :=
  wDocLoop g d.id st [] (extractWorld g (fullText d))

/-- The world corpus run; the Mongo query pre-filters documents whose
`text` has 50000 or more characters. -/
def processCorpusW (g : WGaz) (docs : List Doc) : AggSt WValid :=
  ((docs.filter (fun d => d.text.length < 50000)).foldl (processDocW g)) []

def docValidPairsW (g : WGaz) (d : Doc) : List (Str × WValid) :=
  (extractWorld g (fullText d)).filterMap (wCandPair g)

def docValidKeysW (g : WGaz) (d : Doc) : List Str :=
  (docValidPairsW g d).map Prod.fst

def docHitsW (g : WGaz) (k : Str) (d : Doc) : Bool :=
  (docValidKeysW g d).contains k

/-- One persisted record of the `world_geography_counts` collection. -/
structure GeoDocW where
  location_key : Str
  name : Str
  country : Str
  country_code : Str
  lat : Option Int
  lng : Option Int
  population : Nat
  count : Nat
  type : Str
  sample_doc_ids : List Str
deriving DecidableEq, Repr

/-- The finalization loop of the world `process_documents`. -/
def finalizeW (st : AggSt WValid) : List GeoDocW :=
  st.filterMap (fun kv =>
    match kv.2.info with
    | none => none
    | some v =>
      if 1 ≤ kv.2.count then
        some { location_key := kv.1, name := v.name, country := v.country,
               country_code := v.country_code, lat := v.lat, lng := v.lng,
               population := v.population, count := kv.2.count, type := cityTy,
               sample_doc_ids := sampleDocIds kv.2 }
      else none)

end Geo

namespace Geo

/-! Concrete reference-data instances (shaped as `setup_census_data.py` /
`setup_world_data.py` produce them) and concrete documents, used to
instantiate the theorems below. -/

def bostonRec : USRec :=
  { name := ("Boston").toList, state := some (("Massachusetts").toList),
    state_abbrev := some (("MA").toList), county := some (("Suffolk").toList),
    lat := some 42, lng := some (-71), type := placeTy,
    ambiguous := none, possible_states := none }

def maStates : StatesTbl :=
  { abbrev_to_full := [(("MA").toList, ("Massachusetts").toList)],
    full_to_abbrev := [(("Massachusetts").toList, ("MA").toList)] }

def bostonGaz : USGaz :=
  { locations := [(("boston, massachusetts").toList, bostonRec)],
    counties := [], states := maStates, city_states := [],
    common_words := [], common_names := [] }

def chicagoRec : USRec :=
  { name := ("Chicago").toList, state := some (("Illinois").toList),
    state_abbrev := some (("IL").toList), county := some (("Cook").toList),
    lat := some 41, lng := some (-87), type := placeTy,
    ambiguous := none, possible_states := none }

def ilStates : StatesTbl :=
  { abbrev_to_full := [(("IL").toList, ("Illinois").toList)],
    full_to_abbrev := [(("Illinois").toList, ("IL").toList)] }

def chicagoGaz : USGaz :=
  { locations := [(("chicago, illinois").toList, chicagoRec)],
    counties := [], states := ilStates, city_states := [],
    common_words := [], common_names := [] }

/-- A state-level gazetteer entry as `setup_census_data.py` builds them
(centroid coordinates, `type: 'state'`). -/
def illinoisRec : USRec :=
  { name := ("Illinois").toList, state := some (("Illinois").toList),
    state_abbrev := some (("IL").toList), county := none,
    lat := some 40, lng := some (-88), type := stateTy,
    ambiguous := none, possible_states := none }

def stateGaz : USGaz :=
  { locations := [(("illinois").toList, illinoisRec)],
    counties := [], states := ilStates, city_states := [],
    common_words := [], common_names := [] }

def springfieldIL : StateInfo :=
  { state := ("Illinois").toList, state_abbrev := ("IL").toList,
    lat := some 39, lng := some (-89) }

def springfieldMA : StateInfo :=
  { state := ("Massachusetts").toList, state_abbrev := ("MA").toList,
    lat := some 42, lng := some (-72) }

def springfieldMO : StateInfo :=
  { state := ("Missouri").toList, state_abbrev := ("MO").toList,
    lat := some 37, lng := some (-93) }

def ambGaz : USGaz :=
  { locations := [], counties := [],
    states := { abbrev_to_full := [], full_to_abbrev := [] },
    city_states :=
      [(("springfield").toList, [springfieldIL, springfieldMA, springfieldMO])],
    common_words := [], common_names := [] }

def parisRec : WRec :=
  { name := ("Paris").toList, country := ("France").toList,
    country_code := ("FR").toList, lat := some 48, lng := some 2,
    population := some 2000000 }

def worldGaz : WGaz :=
  { locations := [(("paris, france").toList, parisRec)],
    city_countries := [],
    countries :=
      { code_to_name := [(("FR").toList, ("France").toList)],
        name_to_code := [(("france").toList, ("FR").toList)] },
    common_words := [], common_names := [] }

def lyonRec : WRec :=
  { name := ("Lyon").toList, country := ("France").toList,
    country_code := ("FR").toList, lat := some 45, lng := some 4,
    population := some 500000 }

def lyonFrInfo : CountryInfo :=
  { country := ("France").toList, country_code := ("FR").toList,
    lat := some 45, lng := some 4, population := 500000 }

def lyonUsInfo : CountryInfo :=
  { country := ("United States").toList, country_code := ("US").toList,
    lat := some 37, lng := some (-93), population := 10000 }

/-- World data in which the bare city name `lyon` sits under two countries
in the disambiguation index. -/
def lyonGaz : WGaz :=
  { locations := [(("lyon, france").toList, lyonRec)],
    city_countries := [(("lyon").toList, [lyonFrInfo, lyonUsInfo])],
    countries :=
      { code_to_name := [(("FR").toList, ("France").toList),
                         (("US").toList, ("United States").toList)],
        name_to_code := [(("france").toList, ("FR").toList),
                         (("united states").toList, ("US").toList)] },
    common_words := [], common_names := [] }

def bostonDoc1 : Doc :=
  { id := ("d1").toList, title := [], text := ("Boston, Mass.").toList }

def bostonDoc2 : Doc :=
  { id := ("d2").toList, title := [], text := ("Boston, Massachusetts").toList }

def chicagoDoc : Doc :=
  { id := ("c1").toList, title := [],
    text := ("Chicago, Illinois and Chicago, Illinois").toList }

def stateDoc : Doc :=
  { id := ("s1").toList, title := [], text := ("Moved to Illinois in 1950").toList }

def parisDoc : Doc :=
  { id := ("w1").toList, title := [],
    text := ("Paris, France and Paris, France").toList }

def lyonDoc : Doc :=
  { id := ("w2").toList, title := [],
    text := ("we met in France, the delegation visited Lyon for talks").toList }

def bostonKey : Str := ("boston, massachusetts").toList
def chicagoKey : Str := ("chicago, illinois").toList
def illinoisKey : Str := ("illinois").toList
def parisKey : Str := ("paris, france").toList

end Geo

namespace Geo

/-- The per-document dedup-and-count loop, abstracted over the validated
`(key, record)` pairs (both pipelines' loops reduce to it). -/
def pairLoop (did : Str) : AggSt V → List Str → List (Str × V) → AggSt V
  | st, _, [] => st
  | st, seen, kv :: rest =>
    if seen.contains kv.1 then pairLoop did st seen rest
    else pairLoop did (hitKey did st kv.1 kv.2) (kv.1 :: seen) rest

/-- The candidates the world extractor emits before the proximity
fallback runs (patterns 1-3, with the same emptiness guards as
`extract_locations`). -/
def preWCands (g : WGaz) (text0 : Str) : List WCand :=
  if text0.isEmpty then []
  else
    let text := if 50000 < text0.length then text0.take 50000 else text0
    if (findCountryMentions g text).isEmpty then []
    else p1wCands g text ++ p2wCands g text ++ p3wCands g text

/-! Lemmas about the aggregation-state primitives. -/

theorem alookup_setEntry_self (st : AggSt V) (k : Str) (e : Entry V) :
    alookup (setEntry st k e) k = some e := by
  induction st with
  | nil => simp [setEntry, alookup]
  | cons kv rest ih =>
    by_cases h : kv.1 = k
    · simp [setEntry, h, alookup]
    · simp [setEntry, h, alookup, ih]

theorem alookup_setEntry_ne (st : AggSt V) (k k' : Str) (e : Entry V)
    (h : k' ≠ k) : alookup (setEntry st k e) k' = alookup st k' := by
  induction st with
  | nil => simp [setEntry, alookup, Ne.symm h]
  | cons kv rest ih =>
    by_cases hk : kv.1 = k
    · have hne : kv.1 ≠ k' := by rw [hk]; exact Ne.symm h
      simp [setEntry, hk, alookup, Ne.symm h, hne]
    · simp [setEntry, hk, alookup, ih]

theorem getEntry_setEntry_self (st : AggSt V) (k : Str) (e : Entry V) :
    getEntry (setEntry st k e) k = e := by
  simp [getEntry, alookup_setEntry_self]

theorem getEntry_setEntry_ne (st : AggSt V) (k k' : Str) (e : Entry V)
    (h : k' ≠ k) : getEntry (setEntry st k e) k' = getEntry st k' := by
  simp [getEntry, alookup_setEntry_ne st k k' e h]

theorem mem_setEntry (st : AggSt V) (k : Str) (e : Entry V) (p : Str × Entry V)
    (h : p ∈ setEntry st k e) : p = (k, e) ∨ p ∈ st := by
  induction st with
  | nil =>
    simp only [setEntry] at h
    exact Or.inl (List.mem_singleton.mp h)
  | cons kv rest ih =>
    by_cases hk : kv.1 = k
    · simp only [setEntry, if_pos hk] at h
      rcases List.mem_cons.mp h with h' | h'
      · exact Or.inl h'
      · exact Or.inr (List.mem_cons_of_mem _ h')
    · simp only [setEntry, if_neg hk] at h
      rcases List.mem_cons.mp h with h' | h'
      · exact Or.inr (h' ▸ List.mem_cons_self _ _)
      · rcases ih h' with h'' | h''
        · exact Or.inl h''
        · exact Or.inr (List.mem_cons_of_mem _ h'')

theorem keys_setEntry (st : AggSt V) (k : Str) (e : Entry V) :
    (setEntry st k e).map Prod.fst =
      if k ∈ st.map Prod.fst then st.map Prod.fst else st.map Prod.fst ++ [k] := by
  induction st with
  | nil => simp [setEntry]
  | cons kv rest ih =>
    by_cases hk : kv.1 = k
    · simp [setEntry, hk]
    · have hne : ¬ k = kv.1 := fun hh => hk hh.symm
      simp only [setEntry, if_neg hk, List.map_cons, ih, List.mem_cons]
      by_cases hm : k ∈ rest.map Prod.fst
      · simp [hm, hne]
      · simp [hm, hne]

theorem keys_setEntry_nodup (st : AggSt V) (k : Str) (e : Entry V)
    (h : (st.map Prod.fst).Nodup) : ((setEntry st k e).map Prod.fst).Nodup := by
  rw [keys_setEntry]
  by_cases hm : k ∈ st.map Prod.fst
  · simpa [hm] using h
  · rw [if_neg hm]
    exact List.Nodup.append h (List.nodup_singleton k) (by simpa using hm)

theorem alookup_eq_of_mem_nodup (st : AggSt V) (p : Str × Entry V)
    (hn : (st.map Prod.fst).Nodup) (h : p ∈ st) : alookup st p.1 = some p.2 := by
  induction st with
  | nil => cases h
  | cons kv rest ih =>
    rw [List.map_cons, List.nodup_cons] at hn
    rcases List.mem_cons.mp h with h' | h'
    · rw [h']
      simp [alookup]
    · have hne : kv.1 ≠ p.1 := by
        intro he
        exact hn.1 (he ▸ List.mem_map_of_mem Prod.fst h')
      simp [alookup, hne, ih hn.2 h']

/-! Lemmas about the one-hit update `hitKey`. -/

theorem countOf_hitKey_self (did : Str) (st : AggSt V) (k : Str) (v : V) :
    countOf (hitKey did st k v) k = countOf st k + 1 := by
  simp [countOf, hitKey, getEntry_setEntry_self]

theorem countOf_hitKey_ne (did : Str) (st : AggSt V) (k k' : Str) (v : V)
    (h : k' ≠ k) : countOf (hitKey did st k v) k' = countOf st k' := by
  simp [countOf, hitKey, getEntry_setEntry_ne _ _ _ _ h]

theorem docIdsOf_hitKey_self (did : Str) (st : AggSt V) (k : Str) (v : V) :
    docIdsOf (hitKey did st k v) k =
      if countOf st k + 1 ≤ 100 then docIdsOf st k ++ [did] else docIdsOf st k := by
  by_cases h : countOf st k + 1 ≤ 100 <;>
    simp [docIdsOf, countOf, hitKey, getEntry_setEntry_self, h]

theorem docIdsOf_hitKey_ne (did : Str) (st : AggSt V) (k k' : Str) (v : V)
    (h : k' ≠ k) : docIdsOf (hitKey did st k v) k' = docIdsOf st k' := by
  simp [docIdsOf, hitKey, getEntry_setEntry_ne _ _ _ _ h]

theorem infoOf_hitKey_self (did : Str) (st : AggSt V) (k : Str) (v : V) :
    infoOf (hitKey did st k v) k = some v := by
  simp [infoOf, hitKey, getEntry_setEntry_self]

theorem infoOf_hitKey_ne (did : Str) (st : AggSt V) (k k' : Str) (v : V)
    (h : k' ≠ k) : infoOf (hitKey did st k v) k' = infoOf st k' := by
  simp [infoOf, hitKey, getEntry_setEntry_ne _ _ _ _ h]

theorem keys_hitKey_nodup (did : Str) (st : AggSt V) (k : Str) (v : V)
    (h : (st.map Prod.fst).Nodup) : ((hitKey did st k v).map Prod.fst).Nodup :=
  keys_setEntry_nodup _ _ _ h

theorem mem_hitKey (did : Str) (st : AggSt V) (k : Str) (v : V)
    (p : Str × Entry V) (h : p ∈ hitKey did st k v) :
    (p.1 = k ∧ p.2.count = countOf st k + 1 ∧ p.2.info = some v) ∨ p ∈ st := by
  rcases mem_setEntry _ _ _ _ h with h' | h'
  · exact Or.inl (by simp [h', countOf])
  · exact Or.inr h'

end Geo

namespace Geo

/-! Characterization of the per-document loop `pairLoop`. -/

theorem mem_map_fst_cons_iff (kv : Str × V) (rest : List (Str × V)) (k : Str)
    (hk : k ≠ kv.1) : k ∈ (kv :: rest).map Prod.fst ↔ k ∈ rest.map Prod.fst := by
  rw [List.map_cons, List.mem_cons]
  exact ⟨fun h => h.resolve_left hk, Or.inr⟩

theorem countOf_pairLoop (did : Str) (ps : List (Str × V)) :
    ∀ (st : AggSt V) (seen : List Str) (k : Str),
      countOf (pairLoop did st seen ps) k =
        countOf st k + (if k ∈ ps.map Prod.fst ∧ k ∉ seen then 1 else 0) := by
  induction ps with
  | nil => intro st seen k; simp [pairLoop]
  | cons kv rest ih =>
    intro st seen k
    by_cases hs : seen.contains kv.1
    · have hsm : kv.1 ∈ seen := List.elem_iff.mp hs
      simp only [pairLoop, if_pos hs, ih]
      by_cases hk : k = kv.1
      · rw [if_neg (fun hh => hh.2 (hk ▸ hsm)),
            if_neg (fun (hh : k ∈ (kv :: rest).map Prod.fst ∧ k ∉ seen) =>
              hh.2 (hk ▸ hsm))]
      · rw [if_congr (and_congr_left' (mem_map_fst_cons_iff kv rest k hk)).symm rfl rfl]
    · have hsm : kv.1 ∉ seen := fun hm => hs (List.elem_iff.mpr hm)
      simp only [pairLoop, if_neg hs, ih]
      by_cases hk : k = kv.1
      · rw [hk, countOf_hitKey_self,
            if_neg (fun (hh : kv.1 ∈ rest.map Prod.fst ∧ kv.1 ∉ kv.1 :: seen) =>
              hh.2 (List.mem_cons_self _ _)),
            if_pos (⟨by rw [List.map_cons]; exact List.mem_cons_self _ _, hsm⟩ :
              kv.1 ∈ (kv :: rest).map Prod.fst ∧ kv.1 ∉ seen)]
      · have h2 : (k ∈ kv.1 :: seen) ↔ (k ∈ seen) := by
          rw [List.mem_cons]; exact or_iff_right hk
        rw [countOf_hitKey_ne did st kv.1 k kv.2 hk,
            if_congr (and_congr (mem_map_fst_cons_iff kv rest k hk).symm
              (not_congr h2)) rfl rfl]

theorem docIdsOf_pairLoop (did : Str) (ps : List (Str × V)) :
    ∀ (st : AggSt V) (seen : List Str) (k : Str),
      docIdsOf (pairLoop did st seen ps) k =
        if k ∈ ps.map Prod.fst ∧ k ∉ seen ∧ countOf st k + 1 ≤ 100 then
          docIdsOf st k ++ [did]
        else docIdsOf st k := by
  induction ps with
  | nil => intro st seen k; simp [pairLoop]
  | cons kv rest ih =>
    intro st seen k
    by_cases hs : seen.contains kv.1
    · have hsm : kv.1 ∈ seen := List.elem_iff.mp hs
      simp only [pairLoop, if_pos hs]
      rw [ih]
      by_cases hk : k = kv.1
      · rw [if_neg (fun hh => hh.2.1 (hk ▸ hsm)),
            if_neg (fun (hh : k ∈ (kv :: rest).map Prod.fst ∧ k ∉ seen ∧
              countOf st k + 1 ≤ 100) => hh.2.1 (hk ▸ hsm))]
      · exact if_congr (by simp [List.mem_cons, hk]) rfl rfl
    · have hsm : kv.1 ∉ seen := fun hm => hs (List.elem_iff.mpr hm)
      simp only [pairLoop, if_neg hs]
      rw [ih]
      by_cases hk : k = kv.1
      · rw [hk]
        rw [if_neg (fun (hh : kv.1 ∈ rest.map Prod.fst ∧ kv.1 ∉ kv.1 :: seen ∧
              countOf (hitKey did st kv.1 kv.2) kv.1 + 1 ≤ 100) =>
              hh.2.1 (List.mem_cons_self _ _)),
            docIdsOf_hitKey_self]
        have hiff : (kv.1 ∈ (kv :: rest).map Prod.fst ∧ kv.1 ∉ seen ∧
            countOf st kv.1 + 1 ≤ 100) ↔ (countOf st kv.1 + 1 ≤ 100) := by
          simp [List.mem_cons, hsm]
        rw [if_congr hiff rfl rfl]
      · rw [docIdsOf_hitKey_ne did st kv.1 k kv.2 hk,
            countOf_hitKey_ne did st kv.1 k kv.2 hk]
        exact if_congr (by simp [List.mem_cons, hk]) rfl rfl

theorem infoOf_pairLoop_pres (did : Str) (ps : List (Str × V)) (P : Str → V → Prop)
    (hp : ∀ kv ∈ ps, P kv.1 kv.2) :
    ∀ (st : AggSt V) (seen : List Str),
      (∀ k v, infoOf st k = some v → P k v) →
      ∀ k v, infoOf (pairLoop did st seen ps) k = some v → P k v := by
  induction ps with
  | nil => intro st seen hst k v h; exact hst k v (by simpa [pairLoop] using h)
  | cons kv rest ih =>
    intro st seen hst k v h
    have hp' : ∀ kv' ∈ rest, P kv'.1 kv'.2 :=
      fun kv' hm => hp kv' (List.mem_cons_of_mem _ hm)
    by_cases hs : seen.contains kv.1
    · rw [pairLoop, if_pos hs] at h
      exact ih hp' st seen hst k v h
    · rw [pairLoop, if_neg hs] at h
      refine ih hp' _ _ ?_ k v h
      intro k' v' h'
      by_cases hk : k' = kv.1
      · rw [hk, infoOf_hitKey_self] at h'
        rw [hk, ← Option.some.inj h']
        exact hp kv (List.mem_cons_self _ _)
      · rw [infoOf_hitKey_ne did st kv.1 k' kv.2 hk] at h'
        exact hst k' v' h'

theorem keys_pairLoop_nodup (did : Str) (ps : List (Str × V)) :
    ∀ (st : AggSt V) (seen : List Str),
      (st.map Prod.fst).Nodup → ((pairLoop did st seen ps).map Prod.fst).Nodup := by
  induction ps with
  | nil => intro st seen h; simpa [pairLoop] using h
  | cons kv rest ih =>
    intro st seen h
    by_cases hs : seen.contains kv.1
    · rw [pairLoop, if_pos hs]
      exact ih _ _ h
    · rw [pairLoop, if_neg hs]
      exact ih _ _ (keys_hitKey_nodup _ _ _ _ h)

theorem count_pos_pairLoop (did : Str) (ps : List (Str × V)) :
    ∀ (st : AggSt V) (seen : List Str),
      (∀ p ∈ st, 1 ≤ p.2.count) →
      ∀ p ∈ pairLoop did st seen ps, 1 ≤ p.2.count := by
  induction ps with
  | nil => intro st seen h p hm; exact h p (by simpa [pairLoop] using hm)
  | cons kv rest ih =>
    intro st seen h p hm
    by_cases hs : seen.contains kv.1
    · rw [pairLoop, if_pos hs] at hm
      exact ih st seen h p hm
    · rw [pairLoop, if_neg hs] at hm
      refine ih _ _ ?_ p hm
      intro q hq
      rcases mem_hitKey _ _ _ _ _ hq with h' | h'
      · omega
      · exact h q h'

theorem docIdsLen_pairLoop (did : Str) (ps : List (Str × V))
    (st : AggSt V) (seen : List Str)
    (h : ∀ k, (docIdsOf st k).length = min (countOf st k) 100) :
    ∀ k, (docIdsOf (pairLoop did st seen ps) k).length =
      min (countOf (pairLoop did st seen ps) k) 100 := by
  intro k
  rw [docIdsOf_pairLoop, countOf_pairLoop]
  by_cases hm : k ∈ ps.map Prod.fst ∧ k ∉ seen
  · rw [if_pos hm]
    by_cases hc : countOf st k + 1 ≤ 100
    · rw [if_pos ⟨hm.1, hm.2, hc⟩, List.length_append, h k]
      simp only [List.length_singleton]
      omega
    · rw [if_neg (fun hh => hc hh.2.2), h k]
      omega
  · rw [if_neg hm, if_neg (fun hh => hm ⟨hh.1, hh.2.1⟩), h k]
    omega

end Geo

namespace Geo

/-! Generic corpus-fold lemmas. -/

theorem countOf_foldl (step : AggSt V → Doc → AggSt V) (hit : Str → Doc → Bool)
    (hstep : ∀ st d k, countOf (step st d) k = countOf st k + (if hit k d then 1 else 0)) :
    ∀ (docs : List Doc) (st : AggSt V) (k : Str),
      countOf (docs.foldl step st) k = countOf st k + (docs.filter (hit k)).length := by
  intro docs
  induction docs with
  | nil => intro st k; simp
  | cons d rest ih =>
    intro st k
    rw [List.foldl_cons, ih, hstep]
    by_cases h : hit k d <;> simp [List.filter_cons, h] <;> omega

theorem docIdsOf_foldl (step : AggSt V → Doc → AggSt V) (hit : Str → Doc → Bool)
    (hcnt : ∀ st d k, countOf (step st d) k = countOf st k + (if hit k d then 1 else 0))
    (hids : ∀ st d k, docIdsOf (step st d) k =
      if hit k d ∧ countOf st k + 1 ≤ 100 then docIdsOf st k ++ [d.id]
      else docIdsOf st k) :
    ∀ (docs : List Doc) (st : AggSt V) (k : Str),
      docIdsOf (docs.foldl step st) k =
        docIdsOf st k ++
          ((docs.filter (hit k)).take (100 - countOf st k)).map Doc.id := by
  intro docs
  induction docs with
  | nil => intro st k; simp
  | cons d rest ih =>
    intro st k
    rw [List.foldl_cons, ih, hids, hcnt]
    by_cases h : hit k d
    · by_cases hc : countOf st k + 1 ≤ 100
      · rw [if_pos ⟨h, hc⟩, if_pos h, List.filter_cons_of_pos h]
        have h100 : 100 - countOf st k = (100 - (countOf st k + 1)) + 1 := by omega
        rw [h100, List.take_succ_cons, List.map_cons, List.append_assoc,
            List.singleton_append]
      · rw [if_neg (fun hh => hc hh.2), if_pos h, List.filter_cons_of_pos h]
        have h1 : 100 - (countOf st k + 1) = 0 := by omega
        have h2 : 100 - countOf st k = 0 := by omega
        simp [h1, h2]
    · rw [if_neg (fun hh => h hh.1), if_neg h, List.filter_cons_of_neg h]
      simp

theorem inv_foldl (step : AggSt V → Doc → AggSt V) (Inv : AggSt V → Prop)
    (hstep : ∀ st d, Inv st → Inv (step st d)) :
    ∀ (docs : List Doc) (st : AggSt V), Inv st → Inv (docs.foldl step st) := by
  intro docs
  induction docs with
  | nil => intro st h; simpa using h
  | cons d rest ih => intro st h; exact ih _ (hstep st d h)

/-! Bridging the pipelines' per-document loops to `pairLoop`. -/

theorem usDocLoop_eq_pairLoop (g : USGaz) (did : Str) (cands : List Str) :
    ∀ (st : AggSt USRec) (seen : List Str),
      usDocLoop g did st seen cands =
        pairLoop did st seen (cands.filterMap (usCandPair g)) := by
  induction cands with
  | nil => intro st seen; simp [usDocLoop, pairLoop]
  | cons loc rest ih =>
    intro st seen
    cases h : usCandPair g loc with
    | none => simp [usDocLoop, h, List.filterMap_cons, ih]
    | some kv => simp [usDocLoop, h, List.filterMap_cons, pairLoop, ih]

theorem wDocLoop_eq_pairLoop (g : WGaz) (did : Str) (cands : List WCand) :
    ∀ (st : AggSt WValid) (seen : List Str),
      wDocLoop g did st seen cands =
        pairLoop did st seen (cands.filterMap (wCandPair g)) := by
  induction cands with
  | nil => intro st seen; simp [wDocLoop, pairLoop]
  | cons c rest ih =>
    intro st seen
    cases h : wCandPair g c with
    | none => simp [wDocLoop, h, List.filterMap_cons, ih]
    | some kv => simp [wDocLoop, h, List.filterMap_cons, pairLoop, ih]

theorem countOf_processDocUS (g : USGaz) (st : AggSt USRec) (d : Doc) (k : Str) :
    countOf (processDocUS g st d) k =
      countOf st k + (if docHitsUS g k d then 1 else 0) := by
  rw [processDocUS, usDocLoop_eq_pairLoop, countOf_pairLoop]
  have hiff : (k ∈ ((extractUS g (fullText d)).filterMap (usCandPair g)).map Prod.fst ∧
      k ∉ ([] : List Str)) ↔ (docHitsUS g k d = true) := by
    rw [iff_comm]
    exact Iff.trans List.elem_iff (by simp [docValidKeysUS, docValidPairsUS])
  rw [if_congr hiff rfl rfl]

theorem docIdsOf_processDocUS (g : USGaz) (st : AggSt USRec) (d : Doc) (k : Str) :
    docIdsOf (processDocUS g st d) k =
      if docHitsUS g k d ∧ countOf st k + 1 ≤ 100 then docIdsOf st k ++ [d.id]
      else docIdsOf st k := by
  rw [processDocUS, usDocLoop_eq_pairLoop, docIdsOf_pairLoop]
  have hmem : (k ∈ ((extractUS g (fullText d)).filterMap (usCandPair g)).map Prod.fst) ↔
      (docHitsUS g k d = true) := by
    rw [iff_comm]
    exact Iff.trans List.elem_iff (by simp [docValidKeysUS, docValidPairsUS])
  have hiff : (k ∈ ((extractUS g (fullText d)).filterMap (usCandPair g)).map Prod.fst ∧
      k ∉ ([] : List Str) ∧ countOf st k + 1 ≤ 100) ↔
      ((docHitsUS g k d = true) ∧ countOf st k + 1 ≤ 100) := by
    constructor
    · rintro ⟨h1, _, h3⟩; exact ⟨hmem.mp h1, h3⟩
    · rintro ⟨h1, h3⟩; exact ⟨hmem.mpr h1, by simp, h3⟩
  rw [if_congr hiff rfl rfl]

theorem countOf_processDocW (g : WGaz) (st : AggSt WValid) (d : Doc) (k : Str) :
    countOf (processDocW g st d) k =
      countOf st k + (if docHitsW g k d then 1 else 0) := by
  rw [processDocW, wDocLoop_eq_pairLoop, countOf_pairLoop]
  have hiff : (k ∈ ((extractWorld g (fullText d)).filterMap (wCandPair g)).map Prod.fst ∧
      k ∉ ([] : List Str)) ↔ (docHitsW g k d = true) := by
    rw [iff_comm]
    exact Iff.trans List.elem_iff (by simp [docValidKeysW, docValidPairsW])
  rw [if_congr hiff rfl rfl]

theorem docIdsOf_processDocW (g : WGaz) (st : AggSt WValid) (d : Doc) (k : Str) :
    docIdsOf (processDocW g st d) k =
      if docHitsW g k d ∧ countOf st k + 1 ≤ 100 then docIdsOf st k ++ [d.id]
      else docIdsOf st k := by
  rw [processDocW, wDocLoop_eq_pairLoop, docIdsOf_pairLoop]
  have hmem : (k ∈ ((extractWorld g (fullText d)).filterMap (wCandPair g)).map Prod.fst) ↔
      (docHitsW g k d = true) := by
    rw [iff_comm]
    exact Iff.trans List.elem_iff (by simp [docValidKeysW, docValidPairsW])
  have hiff : (k ∈ ((extractWorld g (fullText d)).filterMap (wCandPair g)).map Prod.fst ∧
      k ∉ ([] : List Str) ∧ countOf st k + 1 ≤ 100) ↔
      ((docHitsW g k d = true) ∧ countOf st k + 1 ≤ 100) := by
    constructor
    · rintro ⟨h1, _, h3⟩; exact ⟨hmem.mp h1, h3⟩
    · rintro ⟨h1, h3⟩; exact ⟨hmem.mpr h1, by simp, h3⟩
  rw [if_congr hiff rfl rfl]

end Geo

namespace Geo

/-! Properties of the validated pairs and corpus-level characterizations. -/

theorem usPairs_props (g : USGaz) (d : Doc) :
    ∀ kv ∈ docValidPairsUS g d, latTruthy kv.2.lat = true ∧ usKey kv.2 = kv.1 := by
  intro kv hm
  rcases List.mem_filterMap.mp hm with ⟨loc, _, h⟩
  simp only [usCandPair] at h
  cases hv : validateUS g loc with
  | none => rw [hv] at h; cases h
  | some v =>
    rw [hv] at h
    dsimp only at h
    by_cases hl : latTruthy v.lat
    · rw [if_pos hl] at h
      injection h with h'
      rw [← h']
      exact ⟨hl, rfl⟩
    · rw [if_neg hl] at h; cases h

theorem wPairs_props (g : WGaz) (d : Doc) :
    ∀ kv ∈ docValidPairsW g d, latTruthy kv.2.lat = true ∧ wKey kv.2 = kv.1 := by
  intro kv hm
  rcases List.mem_filterMap.mp hm with ⟨c, _, h⟩
  simp only [wCandPair] at h
  cases hv : validateWorld g c.1 c.2.1 c.2.2 with
  | none => rw [hv] at h; cases h
  | some v =>
    rw [hv] at h
    dsimp only at h
    by_cases hl : latTruthy v.lat
    · rw [if_pos hl] at h
      injection h with h'
      rw [← h']
      exact ⟨hl, rfl⟩
    · rw [if_neg hl] at h; cases h

theorem countOf_processCorpusUS (g : USGaz) (docs : List Doc) (k : Str) :
    countOf (processCorpusUS g docs) k = (docs.filter (docHitsUS g k)).length := by
  have h := countOf_foldl (processDocUS g) (docHitsUS g)
    (fun st d k => countOf_processDocUS g st d k) docs [] k
  simpa [processCorpusUS, countOf, getEntry, alookup, emptyEntry] using h

theorem docIdsOf_processCorpusUS (g : USGaz) (docs : List Doc) (k : Str) :
    docIdsOf (processCorpusUS g docs) k =
      ((docs.filter (docHitsUS g k)).take 100).map Doc.id := by
  have h := docIdsOf_foldl (processDocUS g) (docHitsUS g)
    (fun st d k => countOf_processDocUS g st d k)
    (fun st d k => docIdsOf_processDocUS g st d k) docs [] k
  simpa [processCorpusUS, docIdsOf, countOf, getEntry, alookup, emptyEntry] using h

theorem countOf_processCorpusW (g : WGaz) (docs : List Doc) (k : Str) :
    countOf (processCorpusW g docs) k =
      ((docs.filter (fun d => d.text.length < 50000)).filter (docHitsW g k)).length := by
  have h := countOf_foldl (processDocW g) (docHitsW g)
    (fun st d k => countOf_processDocW g st d k)
    (docs.filter (fun d => d.text.length < 50000)) [] k
  simpa [processCorpusW, countOf, getEntry, alookup, emptyEntry] using h

theorem docIdsOf_processCorpusW (g : WGaz) (docs : List Doc) (k : Str) :
    docIdsOf (processCorpusW g docs) k =
      (((docs.filter (fun d => d.text.length < 50000)).filter (docHitsW g k)).take 100).map
        Doc.id := by
  have h := docIdsOf_foldl (processDocW g) (docHitsW g)
    (fun st d k => countOf_processDocW g st d k)
    (fun st d k => docIdsOf_processDocW g st d k)
    (docs.filter (fun d => d.text.length < 50000)) [] k
  simpa [processCorpusW, docIdsOf, countOf, getEntry, alookup, emptyEntry] using h

theorem usInv_corpus (g : USGaz) (docs : List Doc) :
    (∀ k v, infoOf (processCorpusUS g docs) k = some v →
        latTruthy v.lat = true ∧ usKey v = k) ∧
    (∀ p ∈ processCorpusUS g docs, 1 ≤ p.2.count) ∧
    ((processCorpusUS g docs).map Prod.fst).Nodup ∧
    (∀ k, (docIdsOf (processCorpusUS g docs) k).length =
      min (countOf (processCorpusUS g docs) k) 100) := by
  refine inv_foldl (processDocUS g)
    (fun st => (∀ k v, infoOf st k = some v → latTruthy v.lat = true ∧ usKey v = k) ∧
      (∀ p ∈ st, 1 ≤ p.2.count) ∧ (st.map Prod.fst).Nodup ∧
      (∀ k, (docIdsOf st k).length = min (countOf st k) 100))
    ?_ docs [] ?_
  · intro st d hInv
    rcases hInv with ⟨h1, h2, h3, h4⟩
    rw [processDocUS, usDocLoop_eq_pairLoop]
    refine ⟨?_, ?_, ?_, ?_⟩
    · exact infoOf_pairLoop_pres d.id _ _
        (fun kv hm => usPairs_props g d kv hm) st [] h1
    · exact count_pos_pairLoop d.id _ st [] h2
    · exact keys_pairLoop_nodup d.id _ st [] h3
    · exact docIdsLen_pairLoop d.id _ st [] h4
  · refine ⟨?_, ?_, ?_, ?_⟩
    · intro k v h
      simp [infoOf, getEntry, alookup, emptyEntry] at h
    · intro p hp
      simp at hp
    · simp
    · intro k
      simp [docIdsOf, countOf, getEntry, alookup, emptyEntry]

theorem wInv_corpus (g : WGaz) (docs : List Doc) :
    (∀ k v, infoOf (processCorpusW g docs) k = some v →
        latTruthy v.lat = true ∧ wKey v = k) ∧
    (∀ p ∈ processCorpusW g docs, 1 ≤ p.2.count) ∧
    ((processCorpusW g docs).map Prod.fst).Nodup ∧
    (∀ k, (docIdsOf (processCorpusW g docs) k).length =
      min (countOf (processCorpusW g docs) k) 100) := by
  refine inv_foldl (processDocW g)
    (fun st => (∀ k v, infoOf st k = some v → latTruthy v.lat = true ∧ wKey v = k) ∧
      (∀ p ∈ st, 1 ≤ p.2.count) ∧ (st.map Prod.fst).Nodup ∧
      (∀ k, (docIdsOf st k).length = min (countOf st k) 100))
    ?_ (docs.filter (fun d => d.text.length < 50000)) [] ?_
  · intro st d hInv
    rcases hInv with ⟨h1, h2, h3, h4⟩
    rw [processDocW, wDocLoop_eq_pairLoop]
    refine ⟨?_, ?_, ?_, ?_⟩
    · exact infoOf_pairLoop_pres d.id _ _
        (fun kv hm => wPairs_props g d kv hm) st [] h1
    · exact count_pos_pairLoop d.id _ st [] h2
    · exact keys_pairLoop_nodup d.id _ st [] h3
    · exact docIdsLen_pairLoop d.id _ st [] h4
  · refine ⟨?_, ?_, ?_, ?_⟩
    · intro k v h
      simp [infoOf, getEntry, alookup, emptyEntry] at h
    · intro p hp
      simp at hp
    · simp
    · intro k
      simp [docIdsOf, countOf, getEntry, alookup, emptyEntry]

theorem filterMap_keys_sublist {V R : Type} (f : Str × Entry V → Option R) (key : R → Str)
    (hf : ∀ kv r, f kv = some r → key r = kv.1) :
    ∀ st : List (Str × Entry V),
      List.Sublist ((st.filterMap f).map key) (st.map Prod.fst) := by
  intro st
  induction st with
  | nil => simp
  | cons kv rest ih =>
    rw [List.filterMap_cons]
    cases hfk : f kv with
    | none =>
      rw [List.map_cons]
      exact List.Sublist.cons _ ih
    | some r =>
      rw [List.map_cons, List.map_cons, hf kv r hfk]
      exact List.Sublist.cons₂ _ ih

end Geo

namespace Geo

theorem mem_finalizeUS (st : AggSt USRec) (r : GeoDocUS) (h : r ∈ finalizeUS st) :
    ∃ kv, kv ∈ st ∧ ∃ v, kv.2.info = some v ∧ 1 ≤ kv.2.count ∧
      r.location_key = kv.1 ∧ r.count = kv.2.count ∧ r.lat = v.lat ∧
      r.sample_doc_ids = sampleDocIds kv.2 := by
  rcases List.mem_filterMap.mp h with ⟨kv, hmem, hf⟩
  cases hi : kv.2.info with
  | none => rw [hi] at hf; cases hf
  | some v =>
    rw [hi] at hf
    dsimp only at hf
    by_cases hc : 1 ≤ kv.2.count
    · rw [if_pos hc] at hf
      injection hf with hf'
      refine ⟨kv, hmem, v, hi, hc, ?_, ?_, ?_, ?_⟩ <;> rw [← hf']
    · rw [if_neg hc] at hf; cases hf

theorem mem_finalizeW (st : AggSt WValid) (r : GeoDocW) (h : r ∈ finalizeW st) :
    ∃ kv, kv ∈ st ∧ ∃ v, kv.2.info = some v ∧ 1 ≤ kv.2.count ∧
      r.location_key = kv.1 ∧ r.count = kv.2.count ∧ r.lat = v.lat ∧
      r.sample_doc_ids = sampleDocIds kv.2 := by
  rcases List.mem_filterMap.mp h with ⟨kv, hmem, hf⟩
  cases hi : kv.2.info with
  | none => rw [hi] at hf; cases hf
  | some v =>
    rw [hi] at hf
    dsimp only at hf
    by_cases hc : 1 ≤ kv.2.count
    · rw [if_pos hc] at hf
      injection hf with hf'
      refine ⟨kv, hmem, v, hi, hc, ?_, ?_, ?_, ?_⟩ <;> rw [← hf']
    · rw [if_neg hc] at hf; cases hf

theorem finalizeUS_keys_nodup (st : AggSt USRec) (h : (st.map Prod.fst).Nodup) :
    ((finalizeUS st).map GeoDocUS.location_key).Nodup := by
  refine List.Nodup.sublist ?_ h
  refine filterMap_keys_sublist _ _ ?_ st
  intro kv r hf
  cases hi : kv.2.info with
  | none => rw [hi] at hf; cases hf
  | some v =>
    rw [hi] at hf
    dsimp only at hf
    by_cases hc : 1 ≤ kv.2.count
    · rw [if_pos hc] at hf
      injection hf with hf'
      rw [← hf']
    · rw [if_neg hc] at hf; cases hf

theorem finalizeW_keys_nodup (st : AggSt WValid) (h : (st.map Prod.fst).Nodup) :
    ((finalizeW st).map GeoDocW.location_key).Nodup := by
  refine List.Nodup.sublist ?_ h
  refine filterMap_keys_sublist _ _ ?_ st
  intro kv r hf
  cases hi : kv.2.info with
  | none => rw [hi] at hf; cases hf
  | some v =>
    rw [hi] at hf
    dsimp only at hf
    by_cases hc : 1 ≤ kv.2.count
    · rw [if_pos hc] at hf
      injection hf with hf'
      rw [← hf']
    · rw [if_neg hc] at hf; cases hf

end Geo

namespace Geo

theorem pyLower_append (a b : Str) : pyLower (a ++ b) = pyLower a ++ pyLower b :=
  List.map_append _ _ _

theorem pyLower_commaSp : pyLower commaSp = commaSp := rfl

theorem worldKey_lower_eq (city cn : Str) :
    pyLower city ++ commaSp ++ pyLower cn = pyLower (city ++ commaSp ++ cn) := by
  rw [pyLower_append, pyLower_append, pyLower_commaSp]

/-- Claim C7: extraction followed by validation maps a text containing
`Boston, Mass.` and a text containing `Boston, Massachusetts` to the same
canonical location key `boston, massachusetts` — the old-style
abbreviation is resolved through the abbreviation table to the full state
name before the gazetteer lookup. -/
theorem claim7_old_abbrev_same_key :
    extractUS bostonGaz (fullText bostonDoc1) = [("Boston, Massachusetts").toList] ∧
    extractUS bostonGaz (fullText bostonDoc2) =
      [("Boston, Massachusetts").toList, ("Massachusetts").toList] ∧
    validateUS bostonGaz (("Boston, Massachusetts").toList) = some bostonRec ∧
    docValidKeysUS bostonGaz bostonDoc1 = [bostonKey] ∧
    docValidKeysUS bostonGaz bostonDoc2 = [bostonKey] := by
  refine ⟨by decide, by decide, by decide, by decide, by decide⟩

/-- Claim C9 (implicit): in the world validator the "ASCII name" fallback
key equals the primary key character for character for every input, so the
fallback lookup can never succeed when the primary lookup fails, and
`validate_and_geocode` is extensionally a single dictionary lookup. -/
theorem claim9_ascii_fallback_redundant :
    (∀ city country_name : Str,
        pyLower city ++ commaSp ++ pyLower country_name =
          pyLower (city ++ commaSp ++ country_name)) ∧
    (∀ (g : WGaz) (city country_name country_code : Str),
        validateWorld g city country_name country_code =
          worldSingleLookup g city country_name) := by
  refine ⟨worldKey_lower_eq, ?_⟩
  intro g city cn cc
  simp only [validateWorld, worldSingleLookup, worldKey_lower_eq]
  cases h : alookup g.locations (pyLower (city ++ commaSp ++ cn)) with
  | some loc => rfl
  | none => rfl

theorem filterMap_filter_of_none {α β : Type} (f : α → Option β) (p : α → Bool)
    (hf : ∀ x, p x = false → f x = none) :
    ∀ l : List α, l.filterMap f = (l.filter p).filterMap f := by
  intro l
  induction l with
  | nil => simp
  | cons x xs ih =>
    by_cases hp : p x
    · rw [List.filter_cons_of_pos hp, List.filterMap_cons, List.filterMap_cons, ih]
    · rw [List.filter_cons_of_neg hp, List.filterMap_cons,
          hf x (Bool.not_eq_true _ ▸ (by simpa using hp)), ih]

/-- Claim C6: in world pattern (c) `City, XX`, matches whose code is a US
state abbreviation (DC included) are discarded before any lookup — in
particular the text `Springfield, IL` yields no world candidate from this
pattern under any gazetteer — and the code `UK` is normalized to `GB`
before the gazetteer lookup. -/
theorem claim6_pattern3_exclusion :
    (∀ (g : WGaz) (ms : List (Str × Str)),
        p3wProcess g ms = p3wProcess g (ms.filter (fun m => ! usStates.contains m.2))) ∧
    (∀ (g : WGaz) (city : Str),
        p3wProcess g [(city, ukCode)] = p3wProcess g [(city, gbCode)]) ∧
    (∀ g : WGaz, p3wCands g (("Springfield, IL").toList) = []) := by
  refine ⟨?_, ?_, ?_⟩
  · intro g ms
    refine filterMap_filter_of_none _ _ ?_ ms
    intro m hm
    have hmem : m.2 ∈ usStates := by
      cases hc : usStates.contains m.2
      · rw [hc] at hm; cases hm
      · exact List.elem_iff.mp hc
    simp only [p3wProcess]
    simp [hmem]
  · intro g city
    have h1 : usStates.contains ukCode = false := by decide
    have h2 : usStates.contains gbCode = false := by decide
    simp only [p3wProcess, List.filterMap_cons, List.filterMap_nil, h1, h2]
    simp [ukCode, gbCode]
  · intro g
    have hscan : scanAll p3wAt (("Springfield, IL").toList) =
        [((("Springfield").toList), ("IL").toList)] := by decide
    rw [p3wCands, hscan]
    simp only [p3wProcess, List.filterMap_cons, List.filterMap_nil]
    rw [if_pos (show usStates.contains (("IL").toList) = true by decide)]

end Geo

namespace Geo

/-- Claim C1: in both the domestic and the world aggregator, processing a
document whose extracted-and-validated candidates contain the same
canonical key k times (k >= 1) increments that key's corpus-wide count by
exactly 1 (per-document dedup via `seen_in_doc`). -/
theorem claim1_per_document_dedup :
    (∀ (g : USGaz) (geo : AggSt USRec) (d : Doc) (k : Str) (n : Nat),
        (docValidKeysUS g d).count k = n → 1 ≤ n →
        countOf (processDocUS g geo d) k = countOf geo k + 1) ∧
    (∀ (g : WGaz) (geo : AggSt WValid) (d : Doc) (k : Str) (n : Nat),
        (docValidKeysW g d).count k = n → 1 ≤ n →
        countOf (processDocW g geo d) k = countOf geo k + 1) := by
  constructor
  · intro g geo d k n hcount hn
    rw [countOf_processDocUS]
    have hmem : k ∈ docValidKeysUS g d := by
      rw [← List.count_pos_iff_mem]
      omega
    rw [if_pos (show docHitsUS g k d = true from List.elem_iff.mpr hmem)]
  · intro g geo d k n hcount hn
    rw [countOf_processDocW]
    have hmem : k ∈ docValidKeysW g d := by
      rw [← List.count_pos_iff_mem]
      omega
    rw [if_pos (show docHitsW g k d = true from List.elem_iff.mpr hmem)]

/-- Witness for C1 at concrete inputs: a document containing
`Chicago, Illinois` twice contributes exactly 1 to `chicago, illinois`,
and a document containing `Paris, France` twice contributes exactly 1 to
`paris, france`. -/
theorem claim1_witness :
    (docValidKeysUS chicagoGaz chicagoDoc).count chicagoKey = 2 ∧
    countOf (processDocUS chicagoGaz [] chicagoDoc) chicagoKey =
      countOf ([] : AggSt USRec) chicagoKey + 1 ∧
    (docValidKeysW worldGaz parisDoc).count parisKey = 2 ∧
    countOf (processDocW worldGaz [] parisDoc) parisKey =
      countOf ([] : AggSt WValid) parisKey + 1 :=
  ⟨by decide,
   claim1_per_document_dedup.1 chicagoGaz [] chicagoDoc chicagoKey 2 (by decide)
     (by decide),
   by decide,
   claim1_per_document_dedup.2 worldGaz [] parisDoc parisKey 2 (by decide)
     (by decide)⟩

/-- Claim C8: aggregation counts are a pure function of the document
sequence and the read-only reference data — for each pipeline the final
count of every key is characterized as the number of (stream-admitted)
documents whose validated candidate keys contain it, so two runs on an
identical corpus and gazetteer produce identical counts for every key. -/
theorem claim8_deterministic_counts :
    (∀ (g : USGaz) (docs : List Doc) (k : Str),
        countOf (processCorpusUS g docs) k = (docs.filter (docHitsUS g k)).length) ∧
    (∀ (g : WGaz) (docs : List Doc) (k : Str),
        countOf (processCorpusW g docs) k =
          ((docs.filter (fun d => d.text.length < 50000)).filter (docHitsW g k)).length) :=
  ⟨countOf_processCorpusUS, countOf_processCorpusW⟩

/-- Claim C4: a document id is appended to a key's sample list only while
the incremented running count is at most 100 (the final `doc_ids` are the
ids of the first 100 documents hitting the key), and the persisted record
keeps only the first 10; hence a key whose final count exceeds 100 stores
exactly 10 sample ids, all from among the first 100 hits. -/
theorem claim4_sample_cap (g : USGaz) (docs : List Doc) (k : Str) :
    docIdsOf (processCorpusUS g docs) k =
      ((docs.filter (docHitsUS g k)).take 100).map Doc.id ∧
    (100 < countOf (processCorpusUS g docs) k →
      (sampleDocIds (getEntry (processCorpusUS g docs) k)).length = 10 ∧
      ∀ i ∈ sampleDocIds (getEntry (processCorpusUS g docs) k),
        i ∈ ((docs.filter (docHitsUS g k)).take 100).map Doc.id) := by
  refine ⟨docIdsOf_processCorpusUS g docs k, ?_⟩
  intro hcnt
  have hids := docIdsOf_processCorpusUS g docs k
  have hcnt' := countOf_processCorpusUS g docs k
  have hlen : (docIdsOf (processCorpusUS g docs) k).length = 100 := by
    rw [hids, List.length_map, List.length_take]
    rw [hcnt'] at hcnt
    omega
  constructor
  · show ((getEntry (processCorpusUS g docs) k).doc_ids.take 10).length = 10
    have : (docIdsOf (processCorpusUS g docs) k).length = 100 := hlen
    rw [docIdsOf] at this
    rw [List.length_take, this]
    omega
  · intro i hi
    have hsub : sampleDocIds (getEntry (processCorpusUS g docs) k) ⊆
        docIdsOf (processCorpusUS g docs) k := List.take_subset _ _
    have := hsub hi
    rwa [hids] at this

theorem replicate_filter (n : Nat) (a : Doc) (p : Doc → Bool) :
    (List.replicate n a).filter p = if p a then List.replicate n a else [] := by
  induction n with
  | zero => simp
  | succ m ih =>
    rw [List.replicate_succ, List.filter_cons, ih]
    by_cases h : p a <;> simp [h, List.replicate_succ]

/-- Witness for C4: 101 copies of the Chicago document drive the
`chicago, illinois` count over 100 and the stored sample has length 10. -/
theorem claim4_witness :
    100 < countOf (processCorpusUS chicagoGaz (List.replicate 101 chicagoDoc)) chicagoKey ∧
    (sampleDocIds (getEntry
      (processCorpusUS chicagoGaz (List.replicate 101 chicagoDoc)) chicagoKey)).length = 10 := by
  have hcnt : countOf (processCorpusUS chicagoGaz (List.replicate 101 chicagoDoc))
      chicagoKey = 101 := by
    rw [countOf_processCorpusUS, replicate_filter,
        if_pos (show docHitsUS chicagoGaz chicagoKey chicagoDoc = true by decide),
        List.length_replicate]
  refine ⟨by omega, ?_⟩
  exact ((claim4_sample_cap chicagoGaz (List.replicate 101 chicagoDoc) chicagoKey).2
    (by omega)).1

end Geo

namespace Geo

/-- Claim C2 (amended): the bare-name disambiguation contract holds for
the domestic validator — a comma-less name under N > 1 regions resolves to
the first disambiguation-list entry with `ambiguous = true` and
`possible_states` of length N — while the world validator has no
disambiguation path at all: every record it returns carries neither
`ambiguous` nor `possible_countries`. -/
theorem claim2_domestic_disambiguation :
    (∀ (g : USGaz) (s : Str) (s0 s1 : StateInfo) (rest : List StateInfo),
        substrB [','] (pyStrip (pyLower s)) = false →
        alookup g.locations (pyStrip (pyLower s)) = none →
        alookup g.counties (pyStrip (pyLower s)) = none →
        alookup g.city_states (pyStrip (pyLower s)) = some (s0 :: s1 :: rest) →
        validateUS g s = some
          { name := s, state := some s0.state, state_abbrev := some s0.state_abbrev,
            county := none, lat := s0.lat, lng := s0.lng, type := placeTy,
            ambiguous := some true,
            possible_states := some ((s0 :: s1 :: rest).map (fun x => x.state)) } ∧
        ((s0 :: s1 :: rest).map (fun x => x.state)).length = (s0 :: s1 :: rest).length) ∧
    (∀ (g : WGaz) (city cn cc : Str) (r : WValid),
        validateWorld g city cn cc = some r →
        r.ambiguous = none ∧ r.possible_countries = none) := by
  constructor
  · intro g s s0 s1 rest hcomma hloc hcty hcs
    refine ⟨?_, by simp⟩
    simp [validateUS, hloc, hcty, hcomma, hcs]
  · intro g city cn cc r h
    simp only [validateWorld] at h
    cases h1 : alookup g.locations (pyLower (city ++ commaSp ++ cn)) with
    | some loc =>
      rw [h1] at h
      injection h with h'
      rw [← h']
      exact ⟨rfl, rfl⟩
    | none =>
      rw [h1] at h
      dsimp only at h
      cases h2 : alookup g.locations (pyLower city ++ commaSp ++ pyLower cn) with
      | some loc =>
        rw [h2] at h
        injection h with h'
        rw [← h']
        exact ⟨rfl, rfl⟩
      | none => rw [h2] at h; cases h

/-- Counterexample to C2 as stated: in a world dataset whose
disambiguation index lists the bare city `lyon` under N = 2 countries,
the world validator returns a record that carries neither
`ambiguous = true` nor any `possible_countries` list. -/
theorem claim2_counterexample :
    (alookup lyonGaz.city_countries (("lyon").toList)).map List.length = some 2 ∧
    validateWorld lyonGaz (("Lyon").toList) (("France").toList) (("FR").toList) =
      some (mkWValid lyonRec) ∧
    (mkWValid lyonRec).ambiguous = none ∧
    (mkWValid lyonRec).possible_countries = none := by decide

/-- Witness for the amended C2 at a concrete input: `Springfield` under
three states resolves ambiguously with all three states listed. -/
theorem claim2_witness :
    validateUS ambGaz (("Springfield").toList) = some
      { name := ("Springfield").toList, state := some springfieldIL.state,
        state_abbrev := some springfieldIL.state_abbrev, county := none,
        lat := springfieldIL.lat, lng := springfieldIL.lng, type := placeTy,
        ambiguous := some true,
        possible_states := some
          (([springfieldIL, springfieldMA, springfieldMO]).map (fun x => x.state)) } :=
  (claim2_domestic_disambiguation.1 ambGaz (("Springfield").toList) springfieldIL
    springfieldMA [springfieldMO] (by decide) (by decide) (by decide) (by decide)).1

/-- Claim C3: when the concatenated title+text contains a full state name
(a key of the `full_to_abbrev` table), the extractor emits it as a
candidate, the validator resolves it through the direct gazetteer lookup
to the state-level entry that `setup_census_data.py` stores under the
lowercase state name (type `state`, centroid coordinates), and the
aggregator increments the lowercase state-name key by exactly 1. -/
theorem claim3_standalone_state_counted (g : USGaz) (geo : AggSt USRec) (d : Doc)
    (stateName : Str) (entry : USRec) (v : Int)
    (hmem : stateName ∈ g.states.full_to_abbrev.map Prod.fst)
    (hsub : substrB stateName (fullText d) = true)
    (hstrip : pyStrip (pyLower stateName) = pyLower stateName)
    (hloc : alookup g.locations (pyLower stateName) = some entry)
    (hty : entry.type = stateTy) (hnm : entry.name = stateName)
    (hlat : entry.lat = some v) (hv : v ≠ 0) :
    stateName ∈ extractUS g (fullText d) ∧
    validateUS g stateName = some entry ∧
    countOf (processDocUS g geo d) (pyLower stateName) =
      countOf geo (pyLower stateName) + 1 := by
  have hne : ¬ (fullText d).isEmpty = true := by
    simp [fullText]
  have hex : stateName ∈ extractUS g (fullText d) := by
    rw [extractUS, if_neg hne]
    exact List.mem_append_right _ (List.mem_filter.mpr ⟨hmem, hsub⟩)
  have hval : validateUS g stateName = some entry := by
    simp only [validateUS, hstrip, hloc]
  have hpair : usCandPair g stateName = some (pyLower stateName, entry) := by
    simp only [usCandPair, hval]
    have hl : latTruthy entry.lat = true := by
      rw [hlat]
      simp [latTruthy, hv]
    rw [if_pos hl]
    have hk : usKey entry = pyLower stateName := by
      rw [usKey, if_pos hty, hnm]
    rw [hk]
  have hhit : docHitsUS g (pyLower stateName) d = true := by
    have hm : pyLower stateName ∈ docValidKeysUS g d := by
      rw [docValidKeysUS]
      exact List.mem_map.mpr ⟨(pyLower stateName, entry),
        List.mem_filterMap.mpr ⟨stateName, hex, hpair⟩, rfl⟩
    exact List.elem_iff.mpr hm
  refine ⟨hex, hval, ?_⟩
  rw [countOf_processDocUS, if_pos hhit]

/-- Witness for C3: the text `Moved to Illinois in 1950` against a
gazetteer holding the state-level `illinois` entry. -/
theorem claim3_witness :
    (("Illinois").toList) ∈ extractUS stateGaz (fullText stateDoc) ∧
    validateUS stateGaz (("Illinois").toList) = some illinoisRec ∧
    countOf (processDocUS stateGaz [] stateDoc) illinoisKey =
      countOf ([] : AggSt USRec) illinoisKey + 1 := by
  have hkey : pyLower (("Illinois").toList) = illinoisKey := by decide
  have h := claim3_standalone_state_counted stateGaz [] stateDoc
    (("Illinois").toList) illinoisRec 40 (by decide) (by decide) (by decide)
    (by decide) (by decide) (by decide) (by decide) (by decide)
  rw [hkey] at h
  exact h

end Geo

namespace Geo

/-- Claim C10 (implicit): every record either pipeline persists has
count >= 1, a present non-zero latitude (candidates validated without a
truthy `lat` are never counted), a `location_key` distinct from every
other record's, and a `sample_doc_ids` list of length exactly
`min(count, 10)`. -/
theorem claim10_output_invariants :
    (∀ (g : USGaz) (docs : List Doc),
        (∀ r ∈ finalizeUS (processCorpusUS g docs),
          1 ≤ r.count ∧ (∃ n : Int, r.lat = some n ∧ n ≠ 0) ∧
          r.sample_doc_ids.length = min r.count 10) ∧
        ((finalizeUS (processCorpusUS g docs)).map GeoDocUS.location_key).Nodup) ∧
    (∀ (g : WGaz) (docs : List Doc),
        (∀ r ∈ finalizeW (processCorpusW g docs),
          1 ≤ r.count ∧ (∃ n : Int, r.lat = some n ∧ n ≠ 0) ∧
          r.sample_doc_ids.length = min r.count 10) ∧
        ((finalizeW (processCorpusW g docs)).map GeoDocW.location_key).Nodup) := by
  constructor
  · intro g docs
    obtain ⟨hinfo, _, hnodup, hlen⟩ := usInv_corpus g docs
    constructor
    · intro r hr
      obtain ⟨kv, hkv, v, hiv, hc, _, hcount, hlat, hsample⟩ :=
        mem_finalizeUS _ r hr
      have hget : getEntry (processCorpusUS g docs) kv.1 = kv.2 := by
        rw [getEntry, alookup_eq_of_mem_nodup _ kv hnodup hkv]
        rfl
      have hinfo' : infoOf (processCorpusUS g docs) kv.1 = some v := by
        rw [infoOf, hget, hiv]
      obtain ⟨hl, _⟩ := hinfo kv.1 v hinfo'
      refine ⟨hcount ▸ hc, ?_, ?_⟩
      · cases hv : v.lat with
        | none => rw [hv] at hl; simp [latTruthy] at hl
        | some n =>
          refine ⟨n, by rw [hlat, hv], ?_⟩
          rw [hv] at hl
          simpa [latTruthy] using hl
      · have hthis := hlen kv.1
        rw [docIdsOf, countOf, hget] at hthis
        rw [hsample, sampleDocIds, List.length_take, hthis, hcount]
        omega
    · exact finalizeUS_keys_nodup _ hnodup
  · intro g docs
    obtain ⟨hinfo, _, hnodup, hlen⟩ := wInv_corpus g docs
    constructor
    · intro r hr
      obtain ⟨kv, hkv, v, hiv, hc, _, hcount, hlat, hsample⟩ :=
        mem_finalizeW _ r hr
      have hget : getEntry (processCorpusW g docs) kv.1 = kv.2 := by
        rw [getEntry, alookup_eq_of_mem_nodup _ kv hnodup hkv]
        rfl
      have hinfo' : infoOf (processCorpusW g docs) kv.1 = some v := by
        rw [infoOf, hget, hiv]
      obtain ⟨hl, _⟩ := hinfo kv.1 v hinfo'
      refine ⟨hcount ▸ hc, ?_, ?_⟩
      · cases hv : v.lat with
        | none => rw [hv] at hl; simp [latTruthy] at hl
        | some n =>
          refine ⟨n, by rw [hlat, hv], ?_⟩
          rw [hv] at hl
          simpa [latTruthy] using hl
      · have hthis := hlen kv.1
        rw [docIdsOf, countOf, hget] at hthis
        rw [hsample, sampleDocIds, List.length_take, hthis, hcount]
        omega
    · exact finalizeW_keys_nodup _ hnodup

/-- Witness for C10 at a concrete input: the single record the domestic
pipeline persists for the Chicago corpus satisfies the invariants. -/
theorem claim10_witness :
    let r : GeoDocUS :=
      { location_key := chicagoKey, name := ("Chicago").toList,
        state := ("Illinois").toList, state_abbrev := ("IL").toList,
        county := ("Cook").toList, lat := some 41, lng := some (-87),
        count := 1, type := placeTy, sample_doc_ids := [("c1").toList] }
    1 ≤ r.count ∧ (∃ n : Int, r.lat = some n ∧ n ≠ 0) ∧
      r.sample_doc_ids.length = min r.count 10 :=
  (claim10_output_invariants.1 chicagoGaz [chicagoDoc]).1 _ (by decide)

end Geo

namespace Geo

theorem p4_token_fold (g : WGaz) (cname ccode : Str) (tokens : List Str) :
    ∀ (acc : List WCand) (found : List Str),
      ∃ Δ : List WCand,
        tokens.foldl (fun (a : List WCand × List Str) city =>
          let city_lower := pyLower city
          if a.2.contains city_lower then a
          else if (alookup g.locations (city_lower ++ commaSp ++ pyLower cname)).isSome then
            (a.1 ++ [(city, cname, ccode)], a.2 ++ [city_lower])
          else a) (acc, found) =
          (acc ++ Δ, found ++ Δ.map (fun c => pyLower c.1)) ∧
        (∀ c ∈ Δ,
          (alookup g.locations (pyLower c.1 ++ commaSp ++ pyLower c.2.1)).isSome = true) ∧
        (∀ c ∈ Δ, pyLower c.1 ∉ found) ∧
        (Δ.map (fun c => pyLower c.1)).Nodup := by
  induction tokens with
  | nil => intro acc found; exact ⟨[], by simp, by simp, by simp, by simp⟩
  | cons tk ts ih =>
    intro acc found
    rw [List.foldl_cons]
    dsimp only
    by_cases h1 : found.contains (pyLower tk)
    · rw [if_pos h1]
      exact ih acc found
    · rw [if_neg h1]
      by_cases h2 : (alookup g.locations (pyLower tk ++ commaSp ++ pyLower cname)).isSome
      · rw [if_pos h2]
        obtain ⟨Δ', hfold, hkeys, hfnd, hnd⟩ := ih (acc ++ [(tk, cname, ccode)])
          (found ++ [pyLower tk])
        refine ⟨(tk, cname, ccode) :: Δ', ?_, ?_, ?_, ?_⟩
        · rw [hfold, List.append_assoc, List.singleton_append, List.map_cons,
              List.append_assoc, List.singleton_append]
        · intro c hc
          rcases List.mem_cons.mp hc with hc' | hc'
          · rw [hc']
            exact h2
          · exact hkeys c hc'
        · intro c hc
          rcases List.mem_cons.mp hc with hc' | hc'
          · rw [hc']
            exact fun hmem => h1 (List.elem_iff.mpr hmem)
          · exact fun hmem => hfnd c hc' (List.mem_append_left _ hmem)
        · rw [List.map_cons, List.nodup_cons]
          refine ⟨?_, hnd⟩
          intro hmem
          rcases List.mem_map.mp hmem with ⟨c, hc, hce⟩
          exact hfnd c hc (hce ▸ List.mem_append_right _ (List.mem_singleton.mpr rfl))
      · rw [if_neg h2]
        exact ih acc found

theorem p4_mention_fold (g : WGaz) (text : Str) (ms : List Mention) :
    ∀ (acc : List WCand) (found : List Str),
      ∃ Δ : List WCand,
        ms.foldl (p4MentionStep g text) (acc, found) =
          (acc ++ Δ, found ++ Δ.map (fun c => pyLower c.1)) ∧
        (∀ c ∈ Δ,
          (alookup g.locations (pyLower c.1 ++ commaSp ++ pyLower c.2.1)).isSome = true) ∧
        (∀ c ∈ Δ, pyLower c.1 ∉ found) ∧
        (Δ.map (fun c => pyLower c.1)).Nodup := by
  induction ms with
  | nil => intro acc found; exact ⟨[], by simp, by simp, by simp, by simp⟩
  | cons m rest ih =>
    intro acc found
    obtain ⟨Δ1, h1, k1, f1, n1⟩ := p4_token_fold g m.2.2.2 m.2.2.1
      (scanAll p4TokenAt (mentionWindow text m.1 m.2.1)) acc found
    obtain ⟨Δ2, h2, k2, f2, n2⟩ := ih (acc ++ Δ1)
      (found ++ Δ1.map (fun c => pyLower c.1))
    refine ⟨Δ1 ++ Δ2, ?_, ?_, ?_, ?_⟩
    · rw [List.foldl_cons,
          show p4MentionStep g text (acc, found) m =
            (acc ++ Δ1, found ++ Δ1.map (fun c => pyLower c.1)) from h1,
          h2, List.map_append, List.append_assoc, List.append_assoc]
    · intro c hc
      rcases List.mem_append.mp hc with hc' | hc'
      · exact k1 c hc'
      · exact k2 c hc'
    · intro c hc
      rcases List.mem_append.mp hc with hc' | hc'
      · exact f1 c hc'
      · exact fun hmem => f2 c hc' (List.mem_append_left _ hmem)
    · rw [List.map_append]
      refine List.Nodup.append n1 n2 ?_
      intro a ha1 ha2
      rcases List.mem_map.mp ha2 with ⟨c, hc, hce⟩
      exact f2 c hc (hce ▸ List.mem_append_right _ ha1)

/-- Claim C5: the world proximity fallback (pattern d) only ever appends
candidates after those of patterns (a)-(c); each appended candidate's
`city, country` key is present in the gazetteer; no appended candidate's
lowercase city was already emitted by patterns (a)-(c); and no lowercase
city is appended twice (the per-document seen-city set). -/
theorem claim5_proximity_fallback (g : WGaz) (text : Str) :
    ∃ Δ : List WCand,
      extractWorld g text = preWCands g text ++ Δ ∧
      (∀ c ∈ Δ,
        (alookup g.locations (pyLower c.1 ++ commaSp ++ pyLower c.2.1)).isSome = true) ∧
      (∀ c ∈ Δ, pyLower c.1 ∉ (preWCands g text).map (fun c' => pyLower c'.1)) ∧
      (Δ.map (fun c => pyLower c.1)).Nodup := by
  by_cases he : text.isEmpty
  · refine ⟨[], ?_, by simp, by simp, by simp⟩
    rw [extractWorld, preWCands, if_pos he, if_pos he]
    simp
  · by_cases hm : (findCountryMentions g
      (if 50000 < text.length then text.take 50000 else text)).isEmpty
    · refine ⟨[], ?_, by simp, by simp, by simp⟩
      rw [extractWorld, preWCands, if_neg he, if_neg he]
      dsimp only
      rw [if_pos hm, if_pos hm]
      simp
    · obtain ⟨Δ, hfold, hk, hf, hn⟩ := p4_mention_fold g
        (if 50000 < text.length then text.take 50000 else text)
        (findCountryMentions g (if 50000 < text.length then text.take 50000 else text))
        (p1wCands g (if 50000 < text.length then text.take 50000 else text) ++
         p2wCands g (if 50000 < text.length then text.take 50000 else text) ++
         p3wCands g (if 50000 < text.length then text.take 50000 else text))
        ((p1wCands g (if 50000 < text.length then text.take 50000 else text) ++
          p2wCands g (if 50000 < text.length then text.take 50000 else text) ++
          p3wCands g (if 50000 < text.length then text.take 50000 else text)).map
          (fun c => pyLower c.1))
      have hpre : preWCands g text =
          p1wCands g (if 50000 < text.length then text.take 50000 else text) ++
          p2wCands g (if 50000 < text.length then text.take 50000 else text) ++
          p3wCands g (if 50000 < text.length then text.take 50000 else text) := by
        rw [preWCands, if_neg he]
        dsimp only
        rw [if_neg hm]
      have hext : extractWorld g text =
          ((findCountryMentions g (if 50000 < text.length then text.take 50000 else text)).foldl
            (p4MentionStep g (if 50000 < text.length then text.take 50000 else text))
            (p1wCands g (if 50000 < text.length then text.take 50000 else text) ++
             p2wCands g (if 50000 < text.length then text.take 50000 else text) ++
             p3wCands g (if 50000 < text.length then text.take 50000 else text),
             (p1wCands g (if 50000 < text.length then text.take 50000 else text) ++
              p2wCands g (if 50000 < text.length then text.take 50000 else text) ++
              p3wCands g (if 50000 < text.length then text.take 50000 else text)).map
              (fun c => pyLower c.1))).1 := by
        rw [extractWorld, if_neg he]
        dsimp only
        rw [if_neg hm]
      refine ⟨Δ, ?_, hk, ?_, hn⟩
      · rw [hext, hfold, hpre]
      · rw [hpre]
        exact hf

end Geo
